import Mathlib

/-!
# Verification of the ordered resume-safe batch processor

Shallow embedding of the concurrent batch-processing harness shared by the
CDN-resolution scripts in `resolve-kwai-cdn-url/scripts/` (`kwai_csv_to_jsonl.py`,
`ks_csv_to_jsonl.py`, `resolve_kuaishou_cdn.py`, `kwai_common.py`), together with
proofs of the spec's claims about ordering under concurrency, failure isolation,
resume filtering, interrupt handling, and atomic rewrite.

External collaborators (network clients, the `videodl` library) are modelled as
oracle functions supplied as parameters; everything the scripts themselves
compute is translated directly from the Python source.
-/

namespace KwaiBatch

/-! ## Reorder buffer of the pooled path

Embeds the `workers > 1` branch of `main` in `kwai_csv_to_jsonl.py`
(lines 254-306) and the identical structure in `ks_csv_to_jsonl.py`:
a `ready` dictionary keyed by input index, a `next_idx` cursor, and a flush
loop `while next_idx in ready` that pops the contiguous prefix and writes it.
The order in which `as_completed` yields futures is modelled as an arbitrary
permutation `order` of the input indices. -/

/-- State of the completion-ordering machinery: the `ready` dict (an
association list keyed by input index), the `next_idx` cursor, and the
records written to the output sink so far. -/
structure PState (α : Type) where
  ready : List (Nat × α)
  nextIdx : Nat
  output : List α
deriving Repr, DecidableEq

/-- `ready[k]` lookup in the association list modelling the Python dict. -/
def lookupReady {α : Type} : Nat → List (Nat × α) → Option α
  | _, [] => none
  | k, (k', v) :: rest => if k = k' then some v else lookupReady k rest

/-- `ready.pop(k)`: remove the entry for key `k`. -/
def removeKey {α : Type} : Nat → List (Nat × α) → List (Nat × α)
  | _, [] => []
  | k, (k', v) :: rest =>
    if k = k' then removeKey k rest else (k', v) :: removeKey k rest

/-- One round of the `while next_idx in ready` flush loop, with explicit fuel
so that the definition is structurally recursive.  Each iteration pops
`ready[next_idx]`, appends the record to the output sink and advances the
cursor, exactly as lines 291-304 of `kwai_csv_to_jsonl.py`. -/
def flushFuel {α : Type} : Nat → PState α → PState α
  | 0, st => st
  | fuel + 1, st =>
    match lookupReady st.nextIdx st.ready with
    | some v =>
      flushFuel fuel
        ⟨removeKey st.nextIdx st.ready, st.nextIdx + 1, st.output ++ [v]⟩
    | none => st

/-- The flush loop; `st.ready.length` fuel always suffices because every
iteration removes one entry. -/
def flushReady {α : Type} (st : PState α) : PState α :=
  flushFuel st.ready.length st

/-- Processing of one completed future with settled value `f idx`:
`ready[idx] = results[idx]` followed by the flush loop. -/
def completeOne {α : Type} (f : Nat → α) (st : PState α) (idx : Nat) : PState α :=
  flushReady { st with ready := (idx, f idx) :: st.ready }

/-- The whole `for future in as_completed(future_map)` loop: completions
arrive in the order given by `order` and are fed through the reorder buffer. -/
def runPool {α : Type} (f : Nat → α) (order : List Nat) : PState α :=
  order.foldl (completeOne f) ⟨[], 0, []⟩

theorem lookupReady_removeKey_self {α : Type} (k : Nat) (l : List (Nat × α)) :
    lookupReady k (removeKey k l) = none := by
  induction l with
  | nil => rfl
  | cons hd tl ih =>
    obtain ⟨k', v⟩ := hd
    by_cases hk : k = k'
    · subst hk
      simp only [removeKey, if_pos rfl]
      exact ih
    · simp only [removeKey, if_neg hk, lookupReady]
      exact ih

theorem lookupReady_removeKey_ne {α : Type} {k j : Nat} (h : k ≠ j)
    (l : List (Nat × α)) : lookupReady k (removeKey j l) = lookupReady k l := by
  induction l with
  | nil => rfl
  | cons hd tl ih =>
    obtain ⟨k', v⟩ := hd
    by_cases hj : j = k'
    · subst hj
      simp only [removeKey, if_pos rfl, lookupReady, if_neg h]
      exact ih
    · by_cases hk : k = k'
      · simp [removeKey, hj, lookupReady, hk]
      · simp only [removeKey, if_neg hj, lookupReady, if_neg hk]
        exact ih

theorem length_removeKey_le {α : Type} (k : Nat) (l : List (Nat × α)) :
    (removeKey k l).length ≤ l.length := by
  induction l with
  | nil => simp [removeKey]
  | cons hd tl ih =>
    obtain ⟨k', v⟩ := hd
    by_cases h : k = k'
    · simp only [removeKey, if_pos h, List.length_cons]
      exact Nat.le_succ_of_le ih
    · simp only [removeKey, if_neg h, List.length_cons]
      omega

theorem length_removeKey_lt {α : Type} {k : Nat} {l : List (Nat × α)} {v : α}
    (h : lookupReady k l = some v) : (removeKey k l).length < l.length := by
  induction l with
  | nil => simp [lookupReady] at h
  | cons hd tl ih =>
    obtain ⟨k', w⟩ := hd
    by_cases hk : k = k'
    · simp only [removeKey, if_pos hk, List.length_cons]
      have := length_removeKey_le k tl
      omega
    · simp only [lookupReady, if_neg hk] at h
      simp only [removeKey, if_neg hk, List.length_cons]
      exact Nat.succ_lt_succ (ih h)

/-- The invariant tying the concrete buffer state to the set `S` of input
indices whose completions have been processed so far: the `ready` dict holds
exactly the completed indices at or beyond the cursor (with their settled
values), the output sink holds the settled values of the contiguous prefix
below the cursor, and everything below the cursor has completed. -/
def ReadyInv {α : Type} (f : Nat → α) (S : List Nat) (st : PState α) : Prop :=
  (∀ k, k ∈ S → st.nextIdx ≤ k → lookupReady k st.ready = some (f k)) ∧
  (∀ k, (k ∉ S ∨ k < st.nextIdx) → lookupReady k st.ready = none) ∧
  st.output = (List.range st.nextIdx).map f ∧
  (∀ i, i < st.nextIdx → i ∈ S)

theorem flushFuel_inv {α : Type} (f : Nat → α) (S : List Nat) :
    ∀ (fuel : Nat) (st : PState α), st.ready.length ≤ fuel → ReadyInv f S st →
      ReadyInv f S (flushFuel fuel st) ∧ (flushFuel fuel st).nextIdx ∉ S := by
  intro fuel
  induction fuel with
  | zero =>
    intro st hlen hinv
    have hnil : st.ready = [] := List.length_eq_zero.mp (Nat.le_zero.mp hlen)
    refine ⟨hinv, fun hmem => ?_⟩
    have := hinv.1 st.nextIdx hmem (Nat.le_refl _)
    rw [hnil] at this
    simp [lookupReady] at this
  | succ n ih =>
    intro st hlen hinv
    obtain ⟨h1, h2, h3, h4⟩ := hinv
    cases hlk : lookupReady st.nextIdx st.ready with
    | none =>
      have heq : flushFuel (n + 1) st = st := by
        simp [flushFuel, hlk]
      rw [heq]
      refine ⟨⟨h1, h2, h3, h4⟩, fun hmem => ?_⟩
      have := h1 st.nextIdx hmem (Nat.le_refl _)
      rw [hlk] at this
      exact Option.noConfusion this
    | some v =>
      have hmem : st.nextIdx ∈ S := by
        by_contra hc
        have := h2 st.nextIdx (Or.inl hc)
        rw [hlk] at this
        exact Option.noConfusion this
      have hv : v = f st.nextIdx := by
        have := h1 st.nextIdx hmem (Nat.le_refl _)
        rw [hlk] at this
        exact Option.some.inj this
      have heq : flushFuel (n + 1) st =
          flushFuel n ⟨removeKey st.nextIdx st.ready, st.nextIdx + 1,
            st.output ++ [v]⟩ := by
        simp [flushFuel, hlk]
      rw [heq]
      apply ih
      · show (removeKey st.nextIdx st.ready).length ≤ n
        have h5 := length_removeKey_lt hlk
        omega
      · refine ⟨?_, ?_, ?_, ?_⟩
        · intro k hk hle
          replace hle : st.nextIdx + 1 ≤ k := hle
          show lookupReady k (removeKey st.nextIdx st.ready) = some (f k)
          have hne : k ≠ st.nextIdx := by omega
          rw [lookupReady_removeKey_ne hne]
          exact h1 k hk (by omega)
        · intro k hk
          show lookupReady k (removeKey st.nextIdx st.ready) = none
          replace hk : k ∉ S ∨ k < st.nextIdx + 1 := hk
          by_cases hne : k = st.nextIdx
          · subst hne
            exact lookupReady_removeKey_self _ _
          · rw [lookupReady_removeKey_ne hne]
            rcases hk with hk | hk
            · exact h2 k (Or.inl hk)
            · exact h2 k (Or.inr (by omega))
        · show st.output ++ [v] = (List.range (st.nextIdx + 1)).map f
          rw [h3, hv, List.range_succ, List.map_append, List.map_cons,
            List.map_nil]
        · intro i hi
          replace hi : i < st.nextIdx + 1 := hi
          by_cases hie : i = st.nextIdx
          · subst hie; exact hmem
          · exact h4 i (by omega)

theorem completeOne_inv {α : Type} (f : Nat → α) (S : List Nat) (st : PState α)
    (idx : Nat) (hinv : ReadyInv f S st) (hidx : idx ∉ S) :
    ReadyInv f (idx :: S) (completeOne f st idx) ∧
      (completeOne f st idx).nextIdx ∉ (idx :: S) := by
  obtain ⟨h1, h2, h3, h4⟩ := hinv
  have hle : st.nextIdx ≤ idx := by
    by_contra hc
    exact hidx (h4 idx (by omega))
  have hpre : ReadyInv f (idx :: S)
      ({ st with ready := (idx, f idx) :: st.ready } : PState α) := by
    refine ⟨?_, ?_, ?_, ?_⟩
    · intro k hk hkle
      replace hkle : st.nextIdx ≤ k := hkle
      show lookupReady k ((idx, f idx) :: st.ready) = some (f k)
      by_cases hkidx : k = idx
      · subst hkidx
        simp [lookupReady]
      · simp only [lookupReady, if_neg hkidx]
        rcases List.mem_cons.mp hk with h | h
        · exact absurd h hkidx
        · exact h1 k h hkle
    · intro k hk
      replace hk : k ∉ (idx :: S) ∨ k < st.nextIdx := hk
      show lookupReady k ((idx, f idx) :: st.ready) = none
      have hkidx : k ≠ idx := by
        rintro rfl
        rcases hk with hk | hk
        · exact hk (List.mem_cons_self _ _)
        · omega
      simp only [lookupReady, if_neg hkidx]
      rcases hk with hk | hk
      · exact h2 k (Or.inl fun hmem => hk (List.mem_cons_of_mem _ hmem))
      · exact h2 k (Or.inr hk)
    · exact h3
    · intro i hi
      replace hi : i < st.nextIdx := hi
      exact List.mem_cons_of_mem _ (h4 i hi)
  have hrw : completeOne f st idx =
      flushFuel ((idx, f idx) :: st.ready).length
        { st with ready := (idx, f idx) :: st.ready } := rfl
  rw [hrw]
  exact flushFuel_inv f (idx :: S) _ _ (Nat.le_refl _) hpre

theorem runPool_aux {α : Type} (f : Nat → α) :
    ∀ (order S : List Nat) (st : PState α),
      order.Nodup → (∀ k ∈ order, k ∉ S) →
      ReadyInv f S st → st.nextIdx ∉ S →
      ReadyInv f (order.reverse ++ S) (order.foldl (completeOne f) st) ∧
        (order.foldl (completeOne f) st).nextIdx ∉ (order.reverse ++ S) := by
  intro order
  induction order with
  | nil =>
    intro S st _ _ hinv hnext
    simpa using ⟨hinv, hnext⟩
  | cons idx rest ih =>
    intro S st hnd hdisj hinv _
    have hstep := completeOne_inv f S st idx hinv (hdisj idx (List.mem_cons_self _ _))
    have hnd' := List.nodup_cons.mp hnd
    have hdisj' : ∀ k ∈ rest, k ∉ (idx :: S) := by
      intro k hk hmem
      rcases List.mem_cons.mp hmem with h | h
      · exact hnd'.1 (h ▸ hk)
      · exact hdisj k (List.mem_cons_of_mem _ hk) h
    have hrest := ih (idx :: S) (completeOne f st idx) hnd'.2 hdisj' hstep.1 hstep.2
    have hl : (idx :: rest).reverse ++ S = rest.reverse ++ (idx :: S) := by
      simp [List.reverse_cons, List.append_assoc]
    rw [List.foldl_cons, hl]
    exact hrest

theorem lookupReady_all_none_nil {α : Type} {l : List (Nat × α)}
    (h : ∀ k, lookupReady k l = none) : l = [] := by
  cases l with
  | nil => rfl
  | cons hd tl =>
    obtain ⟨k, v⟩ := hd
    have := h k
    simp [lookupReady] at this

/-- Normal completion of the pooled path: feeding the completions of all `n`
futures through the reorder buffer, in any order, empties the buffer, advances
the cursor to `n` and writes exactly the settled records in input order. -/
theorem runPool_spec {α : Type} (f : Nat → α) (n : Nat) (order : List Nat)
    (h : order.Perm (List.range n)) :
    runPool f order = ⟨[], n, (List.range n).map f⟩ := by
  have hnd : order.Nodup := h.symm.nodup (List.nodup_range n)
  have hinv0 : ReadyInv f [] (⟨[], 0, []⟩ : PState α) := by
    refine ⟨?_, ?_, rfl, ?_⟩
    · intro k hk _
      simp at hk
    · intro k _
      rfl
    · intro i hi
      replace hi : i < 0 := hi
      omega
  have haux := runPool_aux f order [] ⟨[], 0, []⟩ hnd (by simp) hinv0 (by simp)
  obtain ⟨⟨h1, h2, h3, h4⟩, hnotin⟩ := haux
  have hmemL : ∀ k, k ∈ order.reverse ++ ([] : List Nat) ↔ k < n := by
    intro k
    simp [List.mem_reverse, h.mem_iff, List.mem_range]
  have hn : (order.foldl (completeOne f) ⟨[], 0, []⟩).nextIdx = n := by
    have hub : (order.foldl (completeOne f) ⟨[], 0, []⟩).nextIdx ≤ n := by
      by_contra hc
      have hmem : n ∈ order.reverse ++ ([] : List Nat) := h4 n (by omega)
      rw [hmemL] at hmem
      omega
    have hlb : n ≤ (order.foldl (completeOne f) ⟨[], 0, []⟩).nextIdx := by
      by_contra hc
      exact hnotin ((hmemL _).mpr (by omega))
    omega
  have hready : (order.foldl (completeOne f) ⟨[], 0, []⟩).ready = ([] : List (Nat × α)) := by
    apply lookupReady_all_none_nil
    intro k
    by_cases hk : k ∈ order.reverse ++ ([] : List Nat)
    · exact h2 k (Or.inr (by rw [hn]; exact (hmemL k).mp hk))
    · exact h2 k (Or.inl hk)
  have hout : (order.foldl (completeOne f) ⟨[], 0, []⟩).output = (List.range n).map f := by
    rw [h3, hn]
  show order.foldl (completeOne f) ⟨[], 0, []⟩ = _
  rcases he : order.foldl (completeOne f) (⟨[], 0, []⟩ : PState α) with ⟨r, ni, out⟩
  rw [he] at hready hn hout
  simp only at hready hn hout
  rw [hready, hn, hout]

/-! ## The per-record settle step of `kwai_csv_to_jsonl.py`

`_normalize_cdn_url` (lines 63-77) and the per-future settle step of the
pooled loop (lines 277-280): `results[idx] = _normalize_cdn_url(*future.result())`
with exceptions converted to `("", str(exc))`. -/

/-- Python `a or b` on strings: `a` when truthy (non-empty), else `b`. -/
def pyOrStr (a b : String) : String := if a = "" then b else a

/-- Python `str.strip()`: drop whitespace from both ends.  Implemented over
the character list so that it evaluates inside the kernel. -/
def pyStrip (s : String) : String :=
  String.mk
    (((s.data.dropWhile Char.isWhitespace).reverse.dropWhile Char.isWhitespace).reverse)

/-- Python `str.lower()` (ASCII case folding). -/
def pyLower (s : String) : String := String.mk (s.data.map Char.toLower)

/-- Python `str.startswith(pre)`. -/
def strStartsWith (s pre : String) : Bool := pre.data.isPrefixOf s.data

/-- `_normalize_cdn_url` from `kwai_csv_to_jsonl.py`. -/
def normalize_cdn_url (cdn_url err : String) : String × String :=
  if cdn_url = "" then ("", err)
  else
    let lower := pyLower (pyStrip cdn_url)
    if strStartsWith lower "https://live.kuaishou.com" ||
        strStartsWith lower "http://live.kuaishou.com" then
      ("", pyOrStr err "live.kuaishou.com is not a CDN url")
    else if strStartsWith lower "https://captcha.zt.kuaishou.com" ||
        strStartsWith lower "http://captcha.zt.kuaishou.com" then
      let reason := "captcha url is not a CDN url: " ++ cdn_url
      if err ≠ "" ∧ err ≠ reason then ("", err ++ "; " ++ reason)
      else ("", reason)
    else (cdn_url, err)

/-- Outcome of one call of the per-item transform (`_process_one` run inside a
worker): either it returns a `(cdn_url, error)` pair, or it raises an
exception carrying message `msg`. -/
inductive TaskOutcome where
  | ok (cdn err : String)
  | raises (msg : String)
deriving Repr, DecidableEq

/-- The settle step of the pooled loop, lines 277-280 of
`kwai_csv_to_jsonl.py`: `results[idx] = _normalize_cdn_url(*future.result())`,
and on an exception `results[idx] = ("", str(exc))`. -/
def settleResult (t : Nat → TaskOutcome) (idx : Nat) : String × String :=
  match t idx with
  | .ok cdn err => normalize_cdn_url cdn err
  | .raises msg => ("", msg)

/-- The `workers <= 1` branch of `main` (lines 222-253 of
`kwai_csv_to_jsonl.py`): records are processed strictly sequentially and each
settled record is written immediately.  An exception raised by the transform
is not caught on this path (the surrounding `try` only handles
`KeyboardInterrupt`), so it propagates and ends the run. -/
def seqWrite (t : Nat → TaskOutcome) :
    Nat → Nat → List (String × String) → Except String (List (String × String))
  | _, 0, out => Except.ok out
  | i, rem + 1, out =>
    match t i with
    | TaskOutcome.raises msg => Except.error msg
    | TaskOutcome.ok cdn err => seqWrite t (i + 1) rem (out ++ [normalize_cdn_url cdn err])

/-- Sequential run over inputs `0, …, n-1`. -/
def seqRun (t : Nat → TaskOutcome) (n : Nat) : Except String (List (String × String)) :=
  seqWrite t 0 n []

theorem seqWrite_no_raise (t : Nat → TaskOutcome)
    (hok : ∀ j m, t j ≠ TaskOutcome.raises m) :
    ∀ (rem i : Nat) (out : List (String × String)),
      seqWrite t i rem out =
        Except.ok (out ++ (List.range' i rem).map (settleResult t)) := by
  intro rem
  induction rem with
  | zero =>
    intro i out
    simp [seqWrite]
  | succ m ih =>
    intro i out
    rw [List.range'_succ]
    cases ht : t i with
    | raises msg => exact absurd ht (hok i msg)
    | ok cdn err =>
      have hset : settleResult t i = normalize_cdn_url cdn err := by
        simp [settleResult, ht]
      simp only [seqWrite, ht, ih (i + 1) (out ++ [normalize_cdn_url cdn err]),
        List.map_cons, hset]
      simp

/-- C1: for every input sequence (of length `n`, after resume filtering) and
every worker count, the batch processor writes exactly one output record per
input record, in input order, independent of the order in which concurrent
transform calls complete: the pooled path (any completion permutation `order`)
produces exactly `(List.range n).map (settleResult t)` via the
index-keyed `ready` buffer and the `next_idx` cursor, and the sequential
`workers <= 1` path produces the same list. -/
theorem pooled_run_preserves_input_order (t : Nat → TaskOutcome) (n : Nat)
    (order : List Nat) (h : order.Perm (List.range n)) :
    (runPool (settleResult t) order).output = (List.range n).map (settleResult t) ∧
    (runPool (settleResult t) order).output.length = n ∧
    ((∀ j m, t j ≠ TaskOutcome.raises m) →
      seqRun t n = Except.ok ((List.range n).map (settleResult t))) := by
  have hspec := runPool_spec (settleResult t) n order h
  rw [hspec]
  refine ⟨rfl, by simp, fun hok => ?_⟩
  rw [seqRun, seqWrite_no_raise t hok n 0 [], List.nil_append, List.range_eq_range']

/-- The concrete transform used in the C1 witness: record 1 fails, records 0
and 2 succeed. -/
def sampleT : Nat → TaskOutcome := fun i =>
  if i = 0 then TaskOutcome.ok "http://cdn/a" ""
  else if i = 1 then TaskOutcome.ok "" "fail"
  else TaskOutcome.ok "http://cdn/c" ""

/-- Witness for C1 at a concrete input: three records settled out of order
`[2, 0, 1]`. -/
theorem pooled_run_preserves_input_order_witness :
    ([2, 0, 1] : List Nat).Perm (List.range 3) ∧
    ((runPool (settleResult sampleT) [2, 0, 1]).output =
        (List.range 3).map (settleResult sampleT) ∧
      (runPool (settleResult sampleT) [2, 0, 1]).output.length = 3 ∧
      ((∀ j m, sampleT j ≠ TaskOutcome.raises m) →
        seqRun sampleT 3 = Except.ok ((List.range 3).map (settleResult sampleT)))) :=
  ⟨by decide, pooled_run_preserves_input_order sampleT 3 [2, 0, 1] (by decide)⟩

/-- The transform used in the C2 counterexample: it raises (message `boom`)
for input index `0` and succeeds for every other index. -/
def excT : Nat → TaskOutcome := fun i =>
  if i = 0 then TaskOutcome.raises "boom" else TaskOutcome.ok "http://cdn/ok" ""

/-- C2 counterexample: with `--workers 1` (the sequential branch of `main` in
`kwai_csv_to_jsonl.py`, whose `try` catches only `KeyboardInterrupt`), a
transform exception for record 0 propagates and ends the whole run: no output
is recorded for record 0 and the sibling record 1 is never processed or
written, contradicting the claim that the exception never aborts the overall
run. -/
theorem seq_exception_aborts_run :
    seqRun excT 2 = Except.error "boom" ∧
    ∀ out : List (String × String), seqRun excT 2 ≠ Except.ok out :=
  ⟨rfl, fun _ h => Except.noConfusion (rfl.trans h)⟩

/-- C2 amended: on the pooled path (`workers > 1`), a transform exception for
record `i` is caught per-task and recorded as the settled pair
`("", str(exc))` for that record only; the run still writes exactly one
record per input, in order, and every sibling record `j ≠ i` receives its own
normally settled value.  (With `workers <= 1` an exception instead aborts the
run, see the counterexample.) -/
theorem pooled_exception_isolated (t : Nat → TaskOutcome) (n : Nat)
    (order : List Nat) (h : order.Perm (List.range n)) (i : Nat) (msg : String)
    (hi : t i = TaskOutcome.raises msg) :
    (runPool (settleResult t) order).output.length = n ∧
    (i < n → (runPool (settleResult t) order).output[i]? = some ("", msg)) ∧
    (∀ j, j < n → j ≠ i →
      (runPool (settleResult t) order).output[j]? = some (settleResult t j)) := by
  have hspec := runPool_spec (settleResult t) n order h
  rw [hspec]
  refine ⟨by simp, fun hlt => ?_, fun j hj _ => ?_⟩
  · have : settleResult t i = ("", msg) := by simp [settleResult, hi]
    simp [List.getElem?_map, List.getElem?_range hlt, this]
  · simp [List.getElem?_map, List.getElem?_range hj]

/-- Witness for C2 amended: the concrete raising transform `excT` under
completion order `[1, 0]`. -/
theorem pooled_exception_isolated_witness :
    ([1, 0] : List Nat).Perm (List.range 2) ∧
    excT 0 = TaskOutcome.raises "boom" ∧
    ((runPool (settleResult excT) [1, 0]).output.length = 2 ∧
      (0 < 2 → (runPool (settleResult excT) [1, 0]).output[0]? = some ("", "boom")) ∧
      (∀ j, j < 2 → j ≠ 0 →
        (runPool (settleResult excT) [1, 0]).output[j]? =
          some (settleResult excT j))) :=
  ⟨by decide, rfl, pooled_exception_isolated excT 2 [1, 0] (by decide) 0 "boom" rfl⟩

/-! ## `kwai_common.py`: the resume filter

Records of the prior output file are JSON objects whose values, for the fields
this code inspects, are strings or `None`; `PyVal` models that value domain.
A parsed line of the output file is a `JsonLine`: blank (whitespace-only),
unparseable (`json.loads` raises), parseable but not an object, or an object.
A file is `Option (List JsonLine)` — `none` models `FileNotFoundError`. -/

/-- A Python value stored in a record field: a string, or `None`
(also the result of `dict.get` for an absent key). -/
inductive PyVal where
  | vStr (s : String)
  | vNone
deriving Repr, DecidableEq

/-- A JSON object record: association list from field names to values.
Python dict keys are unique; lookup takes the first binding. -/
abbrev Record := List (String × PyVal)

/-- `item.get(k)`: the stored value, or `None` when the key is absent. -/
def getField : Record → String → PyVal
  | [], _ => PyVal.vNone
  | (k', v) :: rest, k => if k = k' then v else getField rest k

/-- `k in item`. -/
def hasField : Record → String → Bool
  | [], _ => false
  | (k', _) :: rest, k => k == k' || hasField rest k

/-- `item.get(k, d)`: the stored value when the key is present, else `d`. -/
def getFieldD (item : Record) (k : String) (d : PyVal) : PyVal :=
  if hasField item k then getField item k else d

/-- Python truthiness on the modelled value domain: a non-empty string is
truthy; `""` and `None` are falsy. -/
def truthy : PyVal → Bool
  | .vStr s => s != ""
  | .vNone => false

/-- Python `a or b` on values: `a` when truthy, else `b`. -/
def pyOrV (a b : PyVal) : PyVal := if truthy a then a else b

/-- Truthiness of an `Optional[str]` argument (`if error_field:`). -/
def optStrTruthy : Option String → Bool
  | some s => s != ""
  | none => false

/-- The fallback chain of `is_success_record` line 17:
`item.get("CDNURL") or item.get("cdn_url") or item.get("cdnUrl")`. -/
def fallbackChain (item : Record) : PyVal :=
  pyOrV (getField item "CDNURL") (pyOrV (getField item "cdn_url") (getField item "cdnUrl"))

/-- The error value computed by `is_success_record` lines 18-26: start from
`""`, take `item.get(error_field, "")` when `error_field` is truthy, else
`item.get("error_msg", "")` when that key is present; replace `None` by `""`
and strip. -/
def errStringOf (item : Record) (error_field : Option String) : String :=
  let errV :=
    if optStrTruthy error_field then getFieldD item (error_field.getD "") (PyVal.vStr "")
    else if hasField item "error_msg" then getFieldD item "error_msg" (PyVal.vStr "")
    else PyVal.vStr ""
  match errV with
  | PyVal.vNone => ""
  | PyVal.vStr s => pyStrip s

/-- `is_success_record` from `kwai_common.py` (lines 12-27):
`bool(isinstance(cdn, str) and cdn.strip()) and not err` where `cdn` is the
`or`-chain over the configured field and the three fallbacks. -/
def is_success_record (item : Record) (cdn_field : String)
    (error_field : Option String) : Bool :=
  let cdn := pyOrV (getField item cdn_field) (fallbackChain item)
  (match cdn with
   | PyVal.vStr s => pyStrip s != ""
   | PyVal.vNone => false) &&
    (errStringOf item error_field == "")

/-- The key loop of `extract_url_from_record`:
`for key in (url_field, "URL", "url")`, returning the first stored string
with non-blank strip. -/
def extractUrlFromKeys (item : Record) : List String → String
  | [] => ""
  | k :: rest =>
    match getField item k with
    | PyVal.vStr s => if pyStrip s != "" then pyStrip s else extractUrlFromKeys item rest
    | PyVal.vNone => extractUrlFromKeys item rest

/-- `extract_url_from_record` from `kwai_common.py` (lines 30-35). -/
def extract_url_from_record (item : Record) (url_field : String) : String :=
  extractUrlFromKeys item [url_field, "URL", "url"]

/-- One line of a prior output file, as seen by the resume filter after
`line.strip()` and `json.loads`. -/
inductive JsonLine where
  | blank
  | badJson
  | nonObject
  | obj (item : Record)
deriving Repr, DecidableEq

/-- The line loop of `load_resume_success_urls` (lines 47-61): skip blank and
unparseable lines and non-objects, and add the extracted url of every
successful record (when non-empty) to the set. -/
def loadSuccessAux (url_field cdn_field : String) (error_field : Option String) :
    List JsonLine → Finset String → Finset String
  | [], acc => acc
  | JsonLine.blank :: rest, acc =>
    loadSuccessAux url_field cdn_field error_field rest acc
  | JsonLine.badJson :: rest, acc =>
    loadSuccessAux url_field cdn_field error_field rest acc
  | JsonLine.nonObject :: rest, acc =>
    loadSuccessAux url_field cdn_field error_field rest acc
  | JsonLine.obj item :: rest, acc =>
    if is_success_record item cdn_field error_field then
      let url := extract_url_from_record item url_field
      if url != "" then
        loadSuccessAux url_field cdn_field error_field rest (insert url acc)
      else loadSuccessAux url_field cdn_field error_field rest acc
    else loadSuccessAux url_field cdn_field error_field rest acc

/-- `load_resume_success_urls` from `kwai_common.py` (lines 38-64);
`none` models `FileNotFoundError` (line 62), yielding the empty set. -/
def load_resume_success_urls (file : Option (List JsonLine))
    (url_field cdn_field : String) (error_field : Option String) : Finset String :=
  match file with
  | none => ∅
  | some lines => loadSuccessAux url_field cdn_field error_field lines ∅

/-- The rewrite loop of `clean_output_jsonl` (lines 80-96): blank lines are
skipped without counting, unparseable lines and non-objects count as removed,
successful records are written to the temp file and counted as kept, and
everything else counts as removed. -/
def cleanAux (cdn_field : String) (error_field : Option String) :
    List JsonLine → List Record → Nat → Nat → List Record × Nat × Nat
  | [], tmp, kept, removed => (tmp, kept, removed)
  | JsonLine.blank :: rest, tmp, kept, removed =>
    cleanAux cdn_field error_field rest tmp kept removed
  | JsonLine.badJson :: rest, tmp, kept, removed =>
    cleanAux cdn_field error_field rest tmp kept (removed + 1)
  | JsonLine.nonObject :: rest, tmp, kept, removed =>
    cleanAux cdn_field error_field rest tmp kept (removed + 1)
  | JsonLine.obj item :: rest, tmp, kept, removed =>
    if is_success_record item cdn_field error_field then
      cleanAux cdn_field error_field rest (tmp ++ [item]) (kept + 1) removed
    else cleanAux cdn_field error_field rest tmp kept (removed + 1)

/-- `clean_output_jsonl` from `kwai_common.py` (lines 67-100): returns the
`(kept, removed)` counts together with the rewritten file contents (the temp
file swapped into place by `os.replace`); a missing file (`none`) yields
`(0, 0)` and leaves the file system untouched. -/
def clean_output_jsonl (file : Option (List JsonLine)) (cdn_field : String)
    (error_field : Option String) : (Nat × Nat) × Option (List Record) :=
  match file with
  | none => ((0, 0), none)
  | some lines =>
    let res := cleanAux cdn_field error_field lines [] 0 0
    ((res.2.1, res.2.2), some res.1)

/-- Classification of a line as a successful record. -/
def isSuccessLine (cdn_field : String) (error_field : Option String) : JsonLine → Bool
  | JsonLine.obj item => is_success_record item cdn_field error_field
  | _ => false

/-- Classification of a line as removed by `clean_output_jsonl`: failed
records, unparseable lines and non-objects (blank lines are neither kept nor
removed). -/
def isRemovedLine (cdn_field : String) (error_field : Option String) : JsonLine → Bool
  | JsonLine.blank => false
  | JsonLine.badJson => true
  | JsonLine.nonObject => true
  | JsonLine.obj item => !is_success_record item cdn_field error_field

/-- The record kept by the rewrite for a given line, if any. -/
def keptRecord (cdn_field : String) (error_field : Option String) : JsonLine → Option Record
  | JsonLine.obj item =>
    if is_success_record item cdn_field error_field then some item else none
  | _ => none

/-- The natural key contributed by a line, if it is a successful record. -/
def successKeyOfLine (url_field cdn_field : String) (error_field : Option String) :
    JsonLine → Option String
  | JsonLine.obj item =>
    if is_success_record item cdn_field error_field then
      some (extract_url_from_record item url_field)
    else none
  | _ => none

theorem cleanAux_spec (cf : String) (ef : Option String) :
    ∀ (lines : List JsonLine) (tmp : List Record) (kept removed : Nat),
      cleanAux cf ef lines tmp kept removed =
        (tmp ++ lines.filterMap (keptRecord cf ef),
         kept + lines.countP (isSuccessLine cf ef),
         removed + lines.countP (isRemovedLine cf ef)) := by
  intro lines
  induction lines with
  | nil => intro tmp kept removed; simp [cleanAux]
  | cons hd rest ih =>
    intro tmp kept removed
    cases hd with
    | blank =>
      rw [cleanAux, ih]
      simp [List.filterMap_cons, keptRecord, List.countP_cons, isSuccessLine,
        isRemovedLine]
    | badJson =>
      rw [cleanAux, ih]
      simp only [List.filterMap_cons, keptRecord, List.countP_cons, isSuccessLine,
        isRemovedLine, Prod.mk.injEq]
      refine ⟨by simp, by simp, by simp; omega⟩
    | nonObject =>
      rw [cleanAux, ih]
      simp only [List.filterMap_cons, keptRecord, List.countP_cons, isSuccessLine,
        isRemovedLine, Prod.mk.injEq]
      refine ⟨by simp, by simp, by simp; omega⟩
    | obj item =>
      by_cases hs : is_success_record item cf ef
      · rw [cleanAux, if_pos hs, ih]
        simp only [List.filterMap_cons, keptRecord, hs, List.countP_cons,
          isSuccessLine, isRemovedLine, Prod.mk.injEq]
        refine ⟨by simp [List.append_assoc], by simp [hs]; omega, by simp [hs]⟩
      · rw [cleanAux, if_neg hs, ih]
        simp only [List.filterMap_cons, keptRecord, hs, List.countP_cons,
          isSuccessLine, isRemovedLine, Prod.mk.injEq]
        refine ⟨by simp [hs], by simp [hs], by simp [hs]; omega⟩

theorem loadSuccessAux_spec (uf cf : String) (ef : Option String) :
    ∀ (lines : List JsonLine) (acc : Finset String),
      loadSuccessAux uf cf ef lines acc =
        acc ∪ ((lines.filterMap (successKeyOfLine uf cf ef)).filter
          (fun s => s != "")).toFinset := by
  intro lines
  induction lines with
  | nil => intro acc; simp [loadSuccessAux]
  | cons hd rest ih =>
    intro acc
    cases hd with
    | blank => rw [loadSuccessAux, ih]; simp [List.filterMap_cons, successKeyOfLine]
    | badJson => rw [loadSuccessAux, ih]; simp [List.filterMap_cons, successKeyOfLine]
    | nonObject => rw [loadSuccessAux, ih]; simp [List.filterMap_cons, successKeyOfLine]
    | obj item =>
      by_cases hs : is_success_record item cf ef
      · by_cases hu : extract_url_from_record item uf != ""
        · rw [loadSuccessAux, if_pos hs]
          simp only [hu, if_pos]
          rw [ih]
          simp only [List.filterMap_cons, successKeyOfLine, hs, if_pos,
            List.filter_cons, hu]
          rw [List.toFinset_cons, Finset.union_insert, Finset.insert_union]
        · have hu2 : extract_url_from_record item uf = "" := by simpa using hu
          rw [loadSuccessAux, if_pos hs, if_neg (by simp [hu2]), ih]
          simp [List.filterMap_cons, successKeyOfLine, hs, List.filter_cons, hu2]
      · rw [loadSuccessAux, if_neg hs, ih]
        simp [List.filterMap_cons, successKeyOfLine, hs]

/-- C4: for a prior output file whose lines comprise N successful records and
M failed or malformed lines (non-JSON and non-object lines counted as removed
rather than aborting), `clean_output_jsonl` keeps exactly the successful
records (N kept) and removes exactly the M others, and
`load_resume_success_urls` returns exactly the set of natural keys of the
successful records (assuming, as for any file written by a prior run, that
every successful record carries a non-empty key). -/
theorem clean_and_load_resume_counts (lines : List JsonLine) (uf cf : String)
    (ef : Option String)
    (hkeys : ∀ item, JsonLine.obj item ∈ lines →
      is_success_record item cf ef = true →
      extract_url_from_record item uf ≠ "") :
    (clean_output_jsonl (some lines) cf ef).1.1 =
      lines.countP (isSuccessLine cf ef) ∧
    (clean_output_jsonl (some lines) cf ef).1.2 =
      lines.countP (isRemovedLine cf ef) ∧
    (clean_output_jsonl (some lines) cf ef).2 =
      some (lines.filterMap (keptRecord cf ef)) ∧
    load_resume_success_urls (some lines) uf cf ef =
      (lines.filterMap (successKeyOfLine uf cf ef)).toFinset := by
  have hclean := cleanAux_spec cf ef lines [] 0 0
  have hload := loadSuccessAux_spec uf cf ef lines ∅
  have hfilter : (lines.filterMap (successKeyOfLine uf cf ef)).filter
      (fun s => s != "") = lines.filterMap (successKeyOfLine uf cf ef) := by
    apply List.filter_eq_self.mpr
    intro a ha
    obtain ⟨l, hl, hla⟩ := List.mem_filterMap.mp ha
    cases l with
    | obj item =>
      simp only [successKeyOfLine] at hla
      by_cases hs : is_success_record item cf ef
      · rw [if_pos hs] at hla
        have := hkeys item hl hs
        rw [← Option.some.inj hla] at *
        simpa using this
      · rw [if_neg hs] at hla
        exact Option.noConfusion hla
    | blank => exact Option.noConfusion hla
    | badJson => exact Option.noConfusion hla
    | nonObject => exact Option.noConfusion hla
  refine ⟨?_, ?_, ?_, ?_⟩
  · simp [clean_output_jsonl, hclean]
  · simp [clean_output_jsonl, hclean]
  · simp [clean_output_jsonl, hclean]
  · rw [load_resume_success_urls, hload, hfilter]
    simp

/-- The prior output file used in the C4 witness: one successful record, one
failed record, one unparseable line and one blank line. -/
def sampleFile : List JsonLine :=
  [JsonLine.obj [("URL", PyVal.vStr "http://a"), ("CDNURL", PyVal.vStr "http://cdn/a")],
   JsonLine.obj [("URL", PyVal.vStr "http://b"), ("CDNURL", PyVal.vStr ""),
     ("error_msg", PyVal.vStr "fail")],
   JsonLine.badJson, JsonLine.blank]

/-- Witness for C4 on `sampleFile`. -/
theorem clean_and_load_resume_counts_witness :
    (∀ item, JsonLine.obj item ∈ sampleFile →
      is_success_record item "CDNURL" (some "error_msg") = true →
      extract_url_from_record item "URL" ≠ "") ∧
    ((clean_output_jsonl (some sampleFile) "CDNURL" (some "error_msg")).1.1 =
        sampleFile.countP (isSuccessLine "CDNURL" (some "error_msg")) ∧
      (clean_output_jsonl (some sampleFile) "CDNURL" (some "error_msg")).1.2 =
        sampleFile.countP (isRemovedLine "CDNURL" (some "error_msg")) ∧
      (clean_output_jsonl (some sampleFile) "CDNURL" (some "error_msg")).2 =
        some (sampleFile.filterMap (keptRecord "CDNURL" (some "error_msg"))) ∧
      load_resume_success_urls (some sampleFile) "URL" "CDNURL" (some "error_msg") =
        (sampleFile.filterMap
          (successKeyOfLine "URL" "CDNURL" (some "error_msg"))).toFinset) :=
  ⟨by
    intro item hmem hsucc
    simp only [sampleFile, List.mem_cons, List.not_mem_nil, or_false,
      JsonLine.obj.injEq, reduceCtorEq] at hmem
    rcases hmem with h | h <;> subst h <;> decide,
    clean_and_load_resume_counts sampleFile "URL" "CDNURL" (some "error_msg")
      (by
        intro item hmem hsucc
        simp only [sampleFile, List.mem_cons, List.not_mem_nil, or_false,
          JsonLine.obj.injEq, reduceCtorEq] at hmem
        rcases hmem with h | h <;> subst h <;> decide)⟩

/-- C6: a missing prior output file is a no-op for both resume-filter
operations: `clean_output_jsonl` returns `(0, 0)` and writes no file, and
`load_resume_success_urls` returns the empty set. -/
theorem missing_file_is_noop (uf cf : String) (ef : Option String) :
    clean_output_jsonl none cf ef = ((0, 0), none) ∧
    load_resume_success_urls none uf cf ef = ∅ :=
  ⟨rfl, rfl⟩

/-- The record used in the C9 counterexample: the first fallback field
`CDNURL` holds a whitespace-only (truthy, non-empty) string, shadowing the
later fallback `cdn_url` that holds a real URL. -/
def shadowRec : Record :=
  [("CDNURL", PyVal.vStr " "), ("cdn_url", PyVal.vStr "http://x")]

/-- C9 counterexample: in `shadowRec` the configured cdn field `"X"` is
absent, the fallback field `cdn_url` holds the non-empty string `"http://x"`,
and the error field is empty, so the claim predicts the record is classified
successful — but `is_success_record` returns `false`: the `or`-chain stops at
the first truthy value, the whitespace-only `CDNURL`, whose strip is empty. -/
theorem fallback_any_nonempty_false :
    getField shadowRec "X" = PyVal.vNone ∧
    getField shadowRec "cdn_url" = PyVal.vStr "http://x" ∧
    ("http://x" : String) ≠ "" ∧
    errStringOf shadowRec (some "error_msg") = "" ∧
    is_success_record shadowRec "X" (some "error_msg") = false := by
  refine ⟨rfl, rfl, by decide, by decide, by decide⟩

/-- C9 amended: when the configured cdn field is falsy (empty or absent), the
record is classified successful exactly when the *first truthy* value of the
fallback chain `CDNURL`, `cdn_url`, `cdnUrl` is a string with non-whitespace
content and the error field is blank; so resume can treat records written
under a different result-field name as already resolved, with the fallbacks
consulted in order. -/
theorem fallback_first_truthy_classifies (item : Record) (cf : String)
    (ef : Option String) (s : String)
    (hcf : truthy (getField item cf) = false)
    (hfb : fallbackChain item = PyVal.vStr s)
    (hs : pyStrip s ≠ "")
    (herr : errStringOf item ef = "") :
    is_success_record item cf ef = true := by
  rw [is_success_record]
  have hchain : pyOrV (getField item cf) (fallbackChain item) = PyVal.vStr s := by
    rw [pyOrV, hcf]
    simp [hfb]
  rw [hchain, herr]
  simp [hs]

/-- The record used in the C9 witness: the configured field is absent and the
fallback `cdn_url` carries the URL. -/
def fallbackRec : Record := [("cdn_url", PyVal.vStr "http://x")]

/-- Witness for C9 amended on `fallbackRec`. -/
theorem fallback_first_truthy_classifies_witness :
    truthy (getField fallbackRec "X") = false ∧
    fallbackChain fallbackRec = PyVal.vStr "http://x" ∧
    pyStrip "http://x" ≠ "" ∧
    errStringOf fallbackRec (some "error_msg") = "" ∧
    is_success_record fallbackRec "X" (some "error_msg") = true :=
  ⟨rfl, by decide, by decide, by decide,
    fallback_first_truthy_classifies fallbackRec "X" (some "error_msg") "http://x"
      rfl (by decide) (by decide) (by decide)⟩

/-- Non-blank lines: everything `line.strip()` does not reduce to `""`. -/
def nonBlank : JsonLine → Bool
  | JsonLine.blank => false
  | _ => true

theorem cleanAux_filter_nonBlank (cf : String) (ef : Option String) :
    ∀ (lines : List JsonLine) (tmp : List Record) (kept removed : Nat),
      cleanAux cf ef (lines.filter nonBlank) tmp kept removed =
        cleanAux cf ef lines tmp kept removed := by
  intro lines
  induction lines with
  | nil => intro tmp kept removed; rfl
  | cons hd rest ih =>
    intro tmp kept removed
    cases hd with
    | blank =>
      rw [List.filter_cons_of_neg (by simp [nonBlank])]
      exact ih tmp kept removed
    | badJson =>
      rw [List.filter_cons_of_pos (by simp [nonBlank])]
      show cleanAux cf ef (rest.filter nonBlank) tmp kept (removed + 1) =
        cleanAux cf ef rest tmp kept (removed + 1)
      exact ih tmp kept (removed + 1)
    | nonObject =>
      rw [List.filter_cons_of_pos (by simp [nonBlank])]
      show cleanAux cf ef (rest.filter nonBlank) tmp kept (removed + 1) =
        cleanAux cf ef rest tmp kept (removed + 1)
      exact ih tmp kept (removed + 1)
    | obj item =>
      rw [List.filter_cons_of_pos (by simp [nonBlank])]
      by_cases hs : is_success_record item cf ef
      · rw [cleanAux, if_pos hs, cleanAux, if_pos hs]
        exact ih (tmp ++ [item]) (kept + 1) removed
      · rw [cleanAux, if_neg hs, cleanAux, if_neg hs]
        exact ih tmp kept (removed + 1)

theorem loadSuccessAux_filter_nonBlank (uf cf : String) (ef : Option String) :
    ∀ (lines : List JsonLine) (acc : Finset String),
      loadSuccessAux uf cf ef (lines.filter nonBlank) acc =
        loadSuccessAux uf cf ef lines acc := by
  intro lines
  induction lines with
  | nil => intro acc; rfl
  | cons hd rest ih =>
    intro acc
    cases hd with
    | blank =>
      rw [List.filter_cons_of_neg (by simp [nonBlank])]
      exact ih acc
    | badJson =>
      rw [List.filter_cons_of_pos (by simp [nonBlank])]
      show loadSuccessAux uf cf ef (rest.filter nonBlank) acc =
        loadSuccessAux uf cf ef rest acc
      exact ih acc
    | nonObject =>
      rw [List.filter_cons_of_pos (by simp [nonBlank])]
      show loadSuccessAux uf cf ef (rest.filter nonBlank) acc =
        loadSuccessAux uf cf ef rest acc
      exact ih acc
    | obj item =>
      rw [List.filter_cons_of_pos (by simp [nonBlank])]
      by_cases hs : is_success_record item cf ef
      · rw [loadSuccessAux, if_pos hs, loadSuccessAux, if_pos hs]
        by_cases hu : extract_url_from_record item uf != ""
        · rw [if_pos hu, if_pos hu]
          exact ih _
        · rw [if_neg hu, if_neg hu]
          exact ih acc
      · rw [loadSuccessAux, if_neg hs, loadSuccessAux, if_neg hs]
        exact ih acc

theorem filter_nonBlank_replicate (n : Nat) :
    (List.replicate n JsonLine.blank).filter nonBlank = [] := by
  induction n with
  | zero => rfl
  | succ m ih =>
    rw [List.replicate_succ, List.filter_cons_of_neg (by simp [nonBlank])]
    exact ih

/-- C10: blank (whitespace-only) lines in a prior output file are silently
skipped by both resume-filter operations — both return exactly what they
return on the file with blank lines removed (so `kept + removed` can be
strictly smaller than the number of lines), and a file consisting only of
blank lines yields `(0, 0)`, an empty rewrite, and the empty key set. -/
theorem blank_lines_silently_skipped (lines : List JsonLine) (uf cf : String)
    (ef : Option String) (n : Nat) :
    clean_output_jsonl (some lines) cf ef =
      clean_output_jsonl (some (lines.filter nonBlank)) cf ef ∧
    load_resume_success_urls (some lines) uf cf ef =
      load_resume_success_urls (some (lines.filter nonBlank)) uf cf ef ∧
    clean_output_jsonl (some (List.replicate n JsonLine.blank)) cf ef =
      ((0, 0), some []) ∧
    load_resume_success_urls (some (List.replicate n JsonLine.blank)) uf cf ef = ∅ := by
  refine ⟨?_, ?_, ?_, ?_⟩
  · rw [clean_output_jsonl, clean_output_jsonl,
      cleanAux_filter_nonBlank cf ef lines [] 0 0]
  · rw [load_resume_success_urls, load_resume_success_urls,
      loadSuccessAux_filter_nonBlank uf cf ef lines ∅]
  · rw [clean_output_jsonl, show cleanAux cf ef (List.replicate n JsonLine.blank) [] 0 0 =
        cleanAux cf ef [] [] 0 0 from by
      rw [← cleanAux_filter_nonBlank cf ef (List.replicate n JsonLine.blank) [] 0 0,
        filter_nonBlank_replicate]]
    rfl
  · rw [load_resume_success_urls,
      show loadSuccessAux uf cf ef (List.replicate n JsonLine.blank) ∅ =
        loadSuccessAux uf cf ef [] ∅ from by
      rw [← loadSuccessAux_filter_nonBlank uf cf ef (List.replicate n JsonLine.blank) ∅,
        filter_nonBlank_replicate]]
    rfl

/-! ## Atomicity of the rewrite (`clean_output_jsonl`, lines 74-100)

The rewrite is modelled as the trace of file-system operations the function
performs: one `tmp.write(...)` per kept record (to the `NamedTemporaryFile`
created in the output file's directory), followed by a single
`os.replace(tmp.name, output_path)`.  The file-system semantics applies the
operations in order; `replaceOut` atomically makes the temp contents the
output contents.  A crash at any point corresponds to stopping after a
prefix of the trace. -/

/-- One file-system operation of the rewrite. -/
inductive FsOp where
  | writeTmp (item : Record)
  | replaceOut
deriving Repr, DecidableEq

/-- The trace of file-system operations performed by `clean_output_jsonl` on
an existing file: a temp-file write per kept record (in file order), then the
single `os.replace` (line 97) after the loop. -/
def cleanOps (cf : String) (ef : Option String) : List JsonLine → List FsOp
  | [] => [FsOp.replaceOut]
  | JsonLine.blank :: rest => cleanOps cf ef rest
  | JsonLine.badJson :: rest => cleanOps cf ef rest
  | JsonLine.nonObject :: rest => cleanOps cf ef rest
  | JsonLine.obj item :: rest =>
    if is_success_record item cf ef then FsOp.writeTmp item :: cleanOps cf ef rest
    else cleanOps cf ef rest

/-- File-system state: contents of the temp file and of the output path. -/
structure FsState where
  tmp : List Record
  out : List Record
deriving Repr, DecidableEq

/-- Semantics of one operation: a temp write appends; `os.replace` atomically
swaps the temp contents into the output path. -/
def applyOp (st : FsState) : FsOp → FsState
  | FsOp.writeTmp item => { st with tmp := st.tmp ++ [item] }
  | FsOp.replaceOut => { st with out := st.tmp }

/-- Running a sequence of operations. -/
def applyOps (st : FsState) (ops : List FsOp) : FsState := ops.foldl applyOp st

theorem cleanOps_shape (cf : String) (ef : Option String) :
    ∀ lines : List JsonLine,
      cleanOps cf ef lines =
        (lines.filterMap (keptRecord cf ef)).map FsOp.writeTmp ++
          [FsOp.replaceOut] := by
  intro lines
  induction lines with
  | nil => rfl
  | cons hd rest ih =>
    cases hd with
    | blank =>
      show cleanOps cf ef rest = _
      rw [ih]
      simp [keptRecord]
    | badJson =>
      show cleanOps cf ef rest = _
      rw [ih]
      simp [keptRecord]
    | nonObject =>
      show cleanOps cf ef rest = _
      rw [ih]
      simp [keptRecord]
    | obj item =>
      by_cases hs : is_success_record item cf ef
      · rw [cleanOps, if_pos hs, ih]
        simp [keptRecord, hs]
      · rw [cleanOps, if_neg hs, ih]
        simp [keptRecord, hs]

theorem applyOps_writes (ws : List Record) :
    ∀ st : FsState, applyOps st (ws.map FsOp.writeTmp) = ⟨st.tmp ++ ws, st.out⟩ := by
  induction ws with
  | nil =>
    intro st
    cases st
    simp [applyOps]
  | cons w rest ih =>
    intro st
    show applyOps (applyOp st (FsOp.writeTmp w)) (rest.map FsOp.writeTmp) = _
    rw [ih]
    simp [applyOp, List.append_assoc]

/-- C7: the rewrite is atomic — it writes the filtered records to a temp file
in the output file's directory and swaps it into place with a single
`os.replace`, so stopping after any prefix of the operation trace (a crash at
any point) leaves the output path holding either the original contents or the
fully rewritten contents, and the complete trace leaves exactly the kept
records. -/
theorem clean_rewrite_atomic (cf : String) (ef : Option String)
    (lines : List JsonLine) (orig : List Record) (p : List FsOp)
    (hp : p <+: cleanOps cf ef lines) :
    ((applyOps ⟨[], orig⟩ p).out = orig ∨
      (applyOps ⟨[], orig⟩ p).out = lines.filterMap (keptRecord cf ef)) ∧
    (applyOps ⟨[], orig⟩ (cleanOps cf ef lines)).out =
      lines.filterMap (keptRecord cf ef) := by
  have hshape := cleanOps_shape cf ef lines
  constructor
  · rw [hshape] at hp
    have hlen := hp.length_le
    simp only [List.length_append, List.length_map, List.length_cons,
      List.length_nil] at hlen
    have hpeq : p = ((lines.filterMap (keptRecord cf ef)).map FsOp.writeTmp ++
        [FsOp.replaceOut]).take p.length := List.prefix_iff_eq_take.mp hp
    by_cases hk : p.length ≤ (lines.filterMap (keptRecord cf ef)).length
    · left
      have hp2 : p = ((lines.filterMap (keptRecord cf ef)).take p.length).map
          FsOp.writeTmp := by
        rw [hpeq, List.take_append_eq_append_take]
        have h0 : p.length -
            ((lines.filterMap (keptRecord cf ef)).map FsOp.writeTmp).length = 0 := by
          simp only [List.length_map]
          omega
        rw [h0, List.take_zero, List.append_nil, List.map_take]
        congr 1
        simp only [List.length_take, List.length_map]
        omega
      rw [hp2, applyOps_writes]
    · right
      have hlen3 : p.length = (lines.filterMap (keptRecord cf ef)).length + 1 := by
        omega
      have hp2 : p = (lines.filterMap (keptRecord cf ef)).map FsOp.writeTmp ++
          [FsOp.replaceOut] := by
        rw [hpeq, hlen3,
          show (lines.filterMap (keptRecord cf ef)).length + 1 =
            ((lines.filterMap (keptRecord cf ef)).map FsOp.writeTmp ++
              [FsOp.replaceOut]).length from by simp,
          List.take_length]
      rw [hp2, applyOps, List.foldl_append]
      rw [show List.foldl applyOp (⟨[], orig⟩ : FsState)
          ((lines.filterMap (keptRecord cf ef)).map FsOp.writeTmp) =
          applyOps ⟨[], orig⟩ ((lines.filterMap (keptRecord cf ef)).map FsOp.writeTmp)
          from rfl, applyOps_writes]
      rfl
  · rw [hshape, applyOps, List.foldl_append]
    rw [show List.foldl applyOp (⟨[], orig⟩ : FsState)
        ((lines.filterMap (keptRecord cf ef)).map FsOp.writeTmp) =
        applyOps ⟨[], orig⟩ ((lines.filterMap (keptRecord cf ef)).map FsOp.writeTmp)
        from rfl, applyOps_writes]
    rfl

/-! ## `resolve_kuaishou_cdn.py`: the per-item transform `process_one`

`process_one` (lines 122-145) builds one settled record
`{"url", "cdn_url", "error_msg"}` per input.  Its network collaborators —
`resolve_short_url`, `resolve_cdn_url` (the videodl call, which may raise)
and `detect_unavailable_reason` — are supplied as an oracle; Python `None`
for the unavailability reason is modelled as `""` (both are falsy in the
`reason or default` expression). -/

/-- A settled output record of `resolve_kuaishou_cdn.py`. -/
structure ResolveRec where
  url : String
  cdn_url : String
  error_msg : String
deriving Repr, DecidableEq

/-- The character class stripped from a matched URL by `extract_first_url`
(line 42): `" \t\r\n\"'<>[](){}，。；;:!?"`. -/
def urlStripSet : List Char :=
  [' ', '\t', '\r', '\n', '\"', '\x27', '<', '>', '[', ']', '(', ')',
   '\x7b', '\x7d', '，', '。', '；', ';', ':', '!', '?']

/-- Python `str.strip(set)`: drop characters of `set` from both ends. -/
def stripChars (set cs : List Char) : List Char :=
  ((cs.dropWhile (fun c => set.contains c)).reverse.dropWhile
    (fun c => set.contains c)).reverse

/-- Whether the regex `https?://` matches at the head of the suffix. -/
def isUrlStart (cs : List Char) : Bool :=
  List.isPrefixOf "http://".data cs || List.isPrefixOf "https://".data cs

/-- `re.search(r"https?://[^\s]+", text)`: the earliest suffix at which the
pattern matches. -/
def findUrlStart : List Char → Option (List Char)
  | [] => none
  | c :: rest =>
    if isUrlStart (c :: rest) then some (c :: rest) else findUrlStart rest

/-- `extract_first_url` from `resolve_kuaishou_cdn.py` (lines 37-42): the
earliest maximal run of non-whitespace characters starting with
`https?://`, stripped of surrounding punctuation. -/
def extract_first_url (text : String) : Option String :=
  match findUrlStart text.data with
  | none => none
  | some suffix =>
    some (String.mk (stripChars urlStripSet
      (suffix.takeWhile (fun c => !c.isWhitespace))))

/-- Outcome of the `resolve_cdn_url` videodl call: the returned CDN string
(`""` for a falsy result), or an exception carrying message `msg`. -/
inductive FetchOutcome where
  | ok (cdn : String)
  | raises (msg : String)
deriving Repr, DecidableEq

/-- The network collaborators of `process_one`. -/
structure NetOracle where
  resolveShort : String → String
  resolveCdn : String → FetchOutcome
  detectReason : String → String

/-- `process_one` from `resolve_kuaishou_cdn.py` (lines 122-145). -/
def process_one (net : NetOracle) (text : String) : ResolveRec :=
  let raw := pyStrip text
  if raw = "" then ⟨"", "", "empty input"⟩
  else
    let url := match extract_first_url raw with
      | none => raw
      | some u => pyOrStr u raw
    if ¬ strStartsWith url "http" then ⟨url, "", "no http/https url found"⟩
    else
      let resolved := net.resolveShort url
      match net.resolveCdn resolved with
      | FetchOutcome.raises msg => ⟨url, "", msg⟩
      | FetchOutcome.ok cdn =>
        if cdn = "" then
          ⟨url, "",
            pyOrStr (net.detectReason resolved) "cdn url not found in videodl response"⟩
        else ⟨url, cdn, ""⟩

/-- The oracle of the C8 counterexample: `resolve_cdn_url` raises an
exception whose message is the empty string (e.g. a bare `Exception()`,
for which Python `str(exc)` is `""`). -/
def emptyExcNet : NetOracle :=
  ⟨fun s => s, fun _ => FetchOutcome.raises "", fun _ => ""⟩

/-- C8 counterexample: when the transform's exception carries an empty
message, the `except` branch of `process_one` (line 143-144) stores
`str(exc) = ""` in the error field, producing a settled record whose result
field and error field are both empty — contradicting the claim that a settled
record never ends with both fields empty. -/
theorem settled_record_both_empty :
    (process_one emptyExcNet "http://a").cdn_url = "" ∧
    (process_one emptyExcNet "http://a").error_msg = "" := by
  refine ⟨by decide, by decide⟩

theorem pyOrStr_ne_empty {a b : String} (hb : b ≠ "") : pyOrStr a b ≠ "" := by
  rw [pyOrStr]
  by_cases ha : a = ""
  · rw [if_pos ha]; exact hb
  · rw [if_neg ha]; exact ha

theorem str_append_left_ne_empty (s t : String) (hs : s ≠ "") : s ++ t ≠ "" := by
  intro h
  have hl := congrArg String.length h
  rw [String.length_append] at hl
  have h0 : s.length = 0 := by
    have he : ("" : String).length = 0 := rfl
    omega
  apply hs
  cases s with
  | mk data =>
    have hd : data = [] := List.length_eq_zero.mp h0
    rw [hd]

/-- C8 amended: provided every exception raised by the transform carries a
non-empty message, every settled record of `process_one` has exactly one of
the result field and the error field non-empty; and `_normalize_cdn_url` of
`kwai_csv_to_jsonl.py` preserves that exclusive-or for the records it
post-processes.  (A record settled from an exception with an empty message
has both fields empty, see the counterexample.) -/
theorem settled_record_exactly_one (net : NetOracle) (text : String)
    (hexc : ∀ s m, net.resolveCdn s = FetchOutcome.raises m → m ≠ "") :
    (((process_one net text).cdn_url = "" ∧ (process_one net text).error_msg ≠ "") ∨
      ((process_one net text).cdn_url ≠ "" ∧ (process_one net text).error_msg = "")) ∧
    (∀ cdn err : String,
      ((cdn = "" ∧ err ≠ "") ∨ (cdn ≠ "" ∧ err = "")) →
      (((normalize_cdn_url cdn err).1 = "" ∧ (normalize_cdn_url cdn err).2 ≠ "") ∨
        ((normalize_cdn_url cdn err).1 ≠ "" ∧ (normalize_cdn_url cdn err).2 = ""))) := by
  constructor
  · rw [process_one]
    by_cases h1 : pyStrip text = ""
    · rw [if_pos h1]
      exact Or.inl ⟨rfl, by decide⟩
    · rw [if_neg h1]
      simp only
      split
      · exact Or.inl ⟨rfl, by simp⟩
      · split
        · rename_i msg hmsg
          exact Or.inl ⟨rfl, hexc _ msg hmsg⟩
        · rename_i cdn _
          by_cases h2 : cdn = ""
          · rw [if_pos h2]
            exact Or.inl ⟨rfl, pyOrStr_ne_empty (by decide)⟩
          · rw [if_neg h2]
            exact Or.inr ⟨h2, rfl⟩
  · intro cdn err hone
    rw [normalize_cdn_url]
    rcases hone with ⟨hc, he⟩ | ⟨hc, he⟩
    · rw [if_pos hc]
      exact Or.inl ⟨rfl, he⟩
    · rw [if_neg hc]
      simp only
      split
      · exact Or.inl ⟨rfl, pyOrStr_ne_empty (by decide)⟩
      · split
        · split
          · rename_i hcond
            exact absurd he hcond.1
          · exact Or.inl ⟨rfl,
              str_append_left_ne_empty "captcha url is not a CDN url: " cdn
                (by decide)⟩
        · exact Or.inr ⟨hc, he⟩

/-- The well-behaved oracle of the C8 witness. -/
def okNet : NetOracle :=
  ⟨fun s => s, fun _ => FetchOutcome.ok "http://cdn/x", fun _ => ""⟩

/-- Witness for C8 amended on `okNet` and input `"http://a"`. -/
theorem settled_record_exactly_one_witness :
    (∀ s m, okNet.resolveCdn s = FetchOutcome.raises m → m ≠ "") ∧
    ((((process_one okNet "http://a").cdn_url = "" ∧
        (process_one okNet "http://a").error_msg ≠ "") ∨
      ((process_one okNet "http://a").cdn_url ≠ "" ∧
        (process_one okNet "http://a").error_msg = "")) ∧
    (∀ cdn err : String,
      ((cdn = "" ∧ err ≠ "") ∨ (cdn ≠ "" ∧ err = "")) →
      (((normalize_cdn_url cdn err).1 = "" ∧ (normalize_cdn_url cdn err).2 ≠ "") ∨
        ((normalize_cdn_url cdn err).1 ≠ "" ∧ (normalize_cdn_url cdn err).2 = "")))) :=
  ⟨fun _ _ h => FetchOutcome.noConfusion h,
    settled_record_exactly_one okNet "http://a"
      (fun _ _ h => FetchOutcome.noConfusion h)⟩

/-! ## Resume idempotence (`kwai_csv_to_jsonl.py`, `main`)

The two-run pipeline of `main` with `--resume` and the default columns
`--url-col URL`, `--cdn-col CDNURL`, `--error-col error_msg`: run 1 writes
one record per row; run 2 first cleans the output file, loads the success
keys from the cleaned file, filters the rows (lines 201-207), processes the
rest and appends.  The transform (`_process_one` minus its `empty url` guard)
is an arbitrary deterministic function `t` of the share URL. -/

/-- `row[k] = v`: Python dict assignment. -/
def setField : Record → String → PyVal → Record
  | [], k, v => [(k, v)]
  | (k', v') :: rest, k, v =>
    if k = k' then (k, v) :: rest else (k', v') :: setField rest k v

/-- `row.get(k, "")` as the string the scripts use (`None` only arises for
malformed rows, which the well-formedness hypotheses exclude). -/
def rowGetStr (row : Record) (k : String) : String :=
  match getFieldD row k (PyVal.vStr "") with
  | PyVal.vStr s => s
  | PyVal.vNone => ""

/-- The settled `(cdn_url, err)` pair for a share URL: `_process_one`'s
`empty url` guard (lines 40-41), the transform, then `_normalize_cdn_url`
(line 234/278). -/
def settleOf (t : String → String × String) (u : String) : String × String :=
  let pr := if u = "" then ("", "empty url") else t u
  normalize_cdn_url pr.1 pr.2

/-- One processed row (lines 224-237 / 292-296): settle the share URL and
store `row[cdn_col] = cdn_url or ""`, `row[error_col] = err`. -/
def applyRow (t : String → String × String) (row : Record) : Record :=
  let res := settleOf t (rowGetStr row "URL")
  setField (setField row "CDNURL" (PyVal.vStr res.1)) "error_msg" (PyVal.vStr res.2)

/-- The natural key of a row: `row.get("URL", "")`. -/
def rowKey (row : Record) : String := rowGetStr row "URL"

/-- Whether the transform settles key `u` successfully, as the resume filter
will classify the written record. -/
def succOf (t : String → String × String) (u : String) : Bool :=
  pyStrip (settleOf t u).1 != "" && pyStrip (settleOf t u).2 == ""

/-- The rewritten output file after run 2's `clean_output_jsonl`
(lines 166-170), starting from run 1's records. -/
def cleanedOf (t : String → String × String) (rows : List Record) : List Record :=
  ((clean_output_jsonl (some ((rows.map (applyRow t)).map JsonLine.obj))
    "CDNURL" (some "error_msg")).2).getD []

/-- The resume key set of run 2 (`load_resume_success_urls`, lines 173-178),
read from the cleaned file. -/
def resumeSet (t : String → String × String) (rows : List Record) : Finset String :=
  load_resume_success_urls (some ((cleanedOf t rows).map JsonLine.obj))
    "URL" "CDNURL" (some "error_msg")

/-- Run 2's input rows after resume filtering (lines 201-207):
`row.get(url_col, "").strip() not in resume_urls`. -/
def secondRows (t : String → String × String) (rows : List Record) : List Record :=
  rows.filter (fun row => pyStrip (rowGetStr row "URL") ∉ resumeSet t rows)

/-- The final output file after run 2: the cleaned records (append mode) plus
run 2's processed rows. -/
def finalRecords (t : String → String × String) (rows : List Record) : List Record :=
  cleanedOf t rows ++ (secondRows t rows).map (applyRow t)

/-- The set of natural keys of the successful records of an output file. -/
def successRecKeys (records : List Record) : Finset String :=
  ((records.filter (fun r => is_success_record r "CDNURL" (some "error_msg"))).map
    (fun r => extract_url_from_record r "URL")).toFinset

theorem getField_setField_self (row : Record) (k : String) (v : PyVal) :
    getField (setField row k v) k = v := by
  induction row with
  | nil => simp [setField, getField]
  | cons hd rest ih =>
    obtain ⟨k', v'⟩ := hd
    by_cases hk : k = k'
    · simp [setField, hk, getField]
    · simp only [setField, if_neg hk, getField, if_neg hk]
      exact ih

theorem getField_setField_ne (row : Record) {k k2 : String} (h : k2 ≠ k) (v : PyVal) :
    getField (setField row k v) k2 = getField row k2 := by
  induction row with
  | nil => simp [setField, getField, h]
  | cons hd rest ih =>
    obtain ⟨k', v'⟩ := hd
    by_cases hk : k = k'
    · subst hk
      simp [setField, getField, h]
    · by_cases hk2 : k2 = k'
      · simp [setField, if_neg hk, getField, hk2]
      · simp only [setField, if_neg hk, getField, if_neg hk2]
        exact ih

theorem hasField_setField_self (row : Record) (k : String) (v : PyVal) :
    hasField (setField row k v) k = true := by
  induction row with
  | nil => simp [setField, hasField]
  | cons hd rest ih =>
    obtain ⟨k', v'⟩ := hd
    by_cases hk : k = k'
    · simp [setField, hk, hasField]
    · simp only [setField, if_neg hk, hasField, ih, Bool.or_true]

theorem hasField_of_getField_vStr {row : Record} {k s : String}
    (h : getField row k = PyVal.vStr s) : hasField row k = true := by
  induction row with
  | nil => simp [getField] at h
  | cons hd rest ih =>
    obtain ⟨k', v'⟩ := hd
    by_cases hk : k = k'
    · simp [hasField, hk]
    · simp only [getField, if_neg hk] at h
      simp only [hasField, ih h, Bool.or_true]

theorem rowGetStr_of_getField {row : Record} {k s : String}
    (h : getField row k = PyVal.vStr s) : rowGetStr row k = s := by
  rw [rowGetStr, getFieldD, if_pos (hasField_of_getField_vStr h), h]

/-- Well-formedness of an input CSV row for the resume pipeline: it has a
non-empty, already-stripped `URL` value and no `cdn_url`/`cdnUrl` columns
(which would interfere with the success-classification fallbacks). -/
def WFRow (row : Record) : Prop :=
  (∃ s, getField row "URL" = PyVal.vStr s ∧ pyStrip s = s ∧ s ≠ "") ∧
  getField row "cdn_url" = PyVal.vNone ∧ getField row "cdnUrl" = PyVal.vNone

theorem applyRow_fields (t : String → String × String) (row : Record) (s : String)
    (hurl : getField row "URL" = PyVal.vStr s)
    (hcu : getField row "cdn_url" = PyVal.vNone)
    (hcU : getField row "cdnUrl" = PyVal.vNone) :
    getField (applyRow t row) "URL" = PyVal.vStr s ∧
    is_success_record (applyRow t row) "CDNURL" (some "error_msg") = succOf t s ∧
    (pyStrip s = s → s ≠ "" → extract_url_from_record (applyRow t row) "URL" = s) := by
  have hkey : rowGetStr row "URL" = s := rowGetStr_of_getField hurl
  have hne1 : ("URL" : String) ≠ "error_msg" := by decide
  have hne2 : ("URL" : String) ≠ "CDNURL" := by decide
  have hne3 : ("cdn_url" : String) ≠ "error_msg" := by decide
  have hne4 : ("cdn_url" : String) ≠ "CDNURL" := by decide
  have hne5 : ("cdnUrl" : String) ≠ "error_msg" := by decide
  have hne6 : ("cdnUrl" : String) ≠ "CDNURL" := by decide
  have hne7 : ("CDNURL" : String) ≠ "error_msg" := by decide
  have hout : applyRow t row =
      setField (setField row "CDNURL" (PyVal.vStr (settleOf t s).1)) "error_msg"
        (PyVal.vStr (settleOf t s).2) := by
    rw [applyRow, hkey]
  have hU : getField (applyRow t row) "URL" = PyVal.vStr s := by
    rw [hout, getField_setField_ne _ hne1, getField_setField_ne _ hne2, hurl]
  have hC : getField (applyRow t row) "CDNURL" = PyVal.vStr (settleOf t s).1 := by
    rw [hout, getField_setField_ne _ hne7, getField_setField_self]
  have hcu2 : getField (applyRow t row) "cdn_url" = PyVal.vNone := by
    rw [hout, getField_setField_ne _ hne3, getField_setField_ne _ hne4, hcu]
  have hcU2 : getField (applyRow t row) "cdnUrl" = PyVal.vNone := by
    rw [hout, getField_setField_ne _ hne5, getField_setField_ne _ hne6, hcU]
  have hE : getField (applyRow t row) "error_msg" = PyVal.vStr (settleOf t s).2 := by
    rw [hout, getField_setField_self]
  have herr : errStringOf (applyRow t row) (some "error_msg") =
      pyStrip (settleOf t s).2 := by
    simp only [errStringOf]
    rw [if_pos (by decide : optStrTruthy (some "error_msg") = true),
      show (some "error_msg").getD "" = "error_msg" from rfl,
      getFieldD, if_pos (hasField_of_getField_vStr hE), hE]
  refine ⟨hU, ?_, ?_⟩
  · simp only [is_success_record, fallbackChain]
    rw [hC, hcu2, hcU2, herr, succOf]
    by_cases h1 : (settleOf t s).1 = ""
    · rw [h1]
      simp [pyOrV, truthy, show pyStrip "" = "" from rfl]
    · have htr : truthy (PyVal.vStr (settleOf t s).1) = true := by
        simp [truthy, h1]
      rw [pyOrV, if_pos htr]
  · intro hstrip hne
    rw [extract_url_from_record]
    show extractUrlFromKeys (applyRow t row) ["URL", "URL", "url"] = s
    rw [extractUrlFromKeys, hU]
    simp only [hstrip]
    rw [if_pos (by simpa using hne)]

theorem filterMap_keptRecord_obj (cf : String) (ef : Option String) (l : List Record) :
    (l.map JsonLine.obj).filterMap (keptRecord cf ef) =
      l.filter (fun r => is_success_record r cf ef) := by
  induction l with
  | nil => rfl
  | cons r rest ih =>
    rw [List.map_cons, List.filterMap_cons, List.filter_cons]
    by_cases hs : is_success_record r cf ef
    · simp [keptRecord, hs, ih]
    · simp [keptRecord, hs, ih]

theorem filterMap_successKey_obj (uf cf : String) (ef : Option String) (l : List Record) :
    (l.map JsonLine.obj).filterMap (successKeyOfLine uf cf ef) =
      (l.filter (fun r => is_success_record r cf ef)).map
        (fun r => extract_url_from_record r uf) := by
  induction l with
  | nil => rfl
  | cons r rest ih =>
    rw [List.map_cons, List.filterMap_cons, List.filter_cons]
    by_cases hs : is_success_record r cf ef
    · simp [successKeyOfLine, hs, ih]
    · simp [successKeyOfLine, hs, ih]

theorem clean_snd (cf : String) (ef : Option String) (lines : List JsonLine) :
    (clean_output_jsonl (some lines) cf ef).2 =
      some (lines.filterMap (keptRecord cf ef)) := by
  have h := cleanAux_spec cf ef lines [] 0 0
  simp [clean_output_jsonl, h]

theorem cleanedOf_eq (t : String → String × String) (rows : List Record)
    (hwf : ∀ row ∈ rows, WFRow row) :
    cleanedOf t rows =
      (rows.filter (fun r => succOf t (rowKey r))).map (applyRow t) := by
  rw [cleanedOf, clean_snd, Option.getD_some, filterMap_keptRecord_obj,
    List.filter_map]
  congr 1
  apply List.filter_congr
  intro r hr
  obtain ⟨⟨s, hurl, hstrip, hne⟩, hcu, hcU⟩ := hwf r hr
  have h := applyRow_fields t r s hurl hcu hcU
  show is_success_record (applyRow t r) "CDNURL" (some "error_msg") =
    succOf t (rowKey r)
  rw [h.2.1, rowKey, rowGetStr_of_getField hurl]

theorem resumeSet_eq (t : String → String × String) (rows : List Record)
    (hwf : ∀ row ∈ rows, WFRow row) :
    resumeSet t rows =
      ((rows.filter (fun r => succOf t (rowKey r))).map rowKey).toFinset := by
  rw [resumeSet, load_resume_success_urls,
    loadSuccessAux_spec "URL" "CDNURL" (some "error_msg") _ ∅,
    filterMap_successKey_obj, cleanedOf_eq t rows hwf]
  have hallsucc : ∀ r' ∈ (rows.filter (fun r => succOf t (rowKey r))).map (applyRow t),
      is_success_record r' "CDNURL" (some "error_msg") = true := by
    intro r' hr'
    obtain ⟨r, hr, rfl⟩ := List.mem_map.mp hr'
    have hmem := List.mem_filter.mp hr
    obtain ⟨⟨s, hurl, hstrip, hne⟩, hcu, hcU⟩ := hwf r hmem.1
    have h := applyRow_fields t r s hurl hcu hcU
    rw [h.2.1]
    have hk : rowKey r = s := by rw [rowKey, rowGetStr_of_getField hurl]
    rw [← hk]
    exact hmem.2
  rw [List.filter_eq_self.mpr hallsucc]
  have hmapext : ((rows.filter (fun r => succOf t (rowKey r))).map (applyRow t)).map
      (fun r => extract_url_from_record r "URL") =
      (rows.filter (fun r => succOf t (rowKey r))).map rowKey := by
    rw [List.map_map]
    apply List.map_congr_left
    intro r hr
    have hmem := List.mem_filter.mp hr
    obtain ⟨⟨s, hurl, hstrip, hne⟩, hcu, hcU⟩ := hwf r hmem.1
    have h := applyRow_fields t r s hurl hcu hcU
    show extract_url_from_record (applyRow t r) "URL" = rowKey r
    rw [h.2.2 hstrip hne, rowKey, rowGetStr_of_getField hurl]
  rw [hmapext]
  have hne2 : ∀ x ∈ (rows.filter (fun r => succOf t (rowKey r))).map rowKey,
      (x != "") = true := by
    intro x hx
    obtain ⟨r, hr, rfl⟩ := List.mem_map.mp hx
    obtain ⟨⟨s, hurl, hstrip, hne⟩, _, _⟩ := hwf r (List.mem_filter.mp hr).1
    have hk : rowKey r = s := by rw [rowKey, rowGetStr_of_getField hurl]
    rw [hk]
    simpa using hne
  rw [List.filter_eq_self.mpr hne2]
  simp

theorem mem_resumeSet_iff (t : String → String × String) (rows : List Record)
    (hwf : ∀ row ∈ rows, WFRow row) (row : Record) (hrow : row ∈ rows) :
    rowKey row ∈ resumeSet t rows ↔ succOf t (rowKey row) = true := by
  rw [resumeSet_eq t rows hwf]
  simp only [List.mem_toFinset, List.mem_map, List.mem_filter]
  constructor
  · rintro ⟨r, ⟨_, hs⟩, hk⟩
    rw [← hk]
    exact hs
  · intro hs
    exact ⟨row, ⟨hrow, hs⟩, rfl⟩

theorem secondRows_eq (t : String → String × String) (rows : List Record)
    (hwf : ∀ row ∈ rows, WFRow row) :
    secondRows t rows = rows.filter (fun r => !succOf t (rowKey r)) := by
  rw [secondRows]
  apply List.filter_congr
  intro r hr
  obtain ⟨⟨s, hurl, hstrip, _⟩, _, _⟩ := hwf r hr
  have hk : pyStrip (rowGetStr r "URL") = rowKey r := by
    rw [rowKey, rowGetStr_of_getField hurl, hstrip]
  by_cases hs : succOf t (rowKey r) = true
  · have hmem := (mem_resumeSet_iff t rows hwf r hr).mpr hs
    simp [hk, hmem, hs]
  · have hmem : rowKey r ∉ resumeSet t rows :=
      fun hm => hs ((mem_resumeSet_iff t rows hwf r hr).mp hm)
    simp [hk, hmem, Bool.eq_false_iff.mpr (by simpa using hs)]

theorem map_extract_applyRow (t : String → String × String) (l : List Record)
    (hwf : ∀ row ∈ l, WFRow row) :
    (l.map (applyRow t)).map (fun r => extract_url_from_record r "URL") =
      l.map rowKey := by
  rw [List.map_map]
  apply List.map_congr_left
  intro r hr
  obtain ⟨⟨s, hurl, hstrip, hne⟩, hcu, hcU⟩ := hwf r hr
  have h := applyRow_fields t r s hurl hcu hcU
  show extract_url_from_record (applyRow t r) "URL" = rowKey r
  rw [h.2.2 hstrip hne, rowKey, rowGetStr_of_getField hurl]

theorem successRecKeys_map_applyRow (t : String → String × String) (l : List Record)
    (hwf : ∀ row ∈ l, WFRow row) :
    successRecKeys (l.map (applyRow t)) =
      ((l.filter (fun r => succOf t (rowKey r))).map rowKey).toFinset := by
  rw [successRecKeys, List.filter_map]
  have hfc : l.filter ((fun r => is_success_record r "CDNURL" (some "error_msg")) ∘
      applyRow t) = l.filter (fun r => succOf t (rowKey r)) := by
    apply List.filter_congr
    intro r hr
    obtain ⟨⟨s, hurl, hstrip, hne⟩, hcu, hcU⟩ := hwf r hr
    have h := applyRow_fields t r s hurl hcu hcU
    show is_success_record (applyRow t r) "CDNURL" (some "error_msg") =
      succOf t (rowKey r)
    rw [h.2.1, rowKey, rowGetStr_of_getField hurl]
  rw [hfc, map_extract_applyRow t _ (fun row hm => hwf row (List.mem_filter.mp hm).1)]

/-- C5: running the job twice with `--resume` against the same input and a
shared output file yields the same final set of successful natural keys as
one run over the full input; the success keys of the resumed (cleaned) output
file, unioned with the keys processed in the second run, equal the keys of
the original input; and when the input keys are distinct, the final output
holds no duplicate keys.  Stated for well-formed CSV rows (non-empty stripped
`URL` value, no `cdn_url`/`cdnUrl` columns) and a deterministic transform. -/
theorem resume_second_run_idempotent (t : String → String × String)
    (rows : List Record) (hwf : ∀ row ∈ rows, WFRow row) :
    successRecKeys (finalRecords t rows) = successRecKeys (rows.map (applyRow t)) ∧
    resumeSet t rows ∪ ((secondRows t rows).map rowKey).toFinset =
      (rows.map rowKey).toFinset ∧
    ((rows.map rowKey).Nodup →
      ((finalRecords t rows).map (fun r => extract_url_from_record r "URL")).Nodup) := by
  have hwfS : ∀ row ∈ rows.filter (fun r => succOf t (rowKey r)), WFRow row :=
    fun row hm => hwf row (List.mem_filter.mp hm).1
  have hwfF : ∀ row ∈ rows.filter (fun r => !succOf t (rowKey r)), WFRow row :=
    fun row hm => hwf row (List.mem_filter.mp hm).1
  have hclean := cleanedOf_eq t rows hwf
  have hsecond := secondRows_eq t rows hwf
  have hfinal : finalRecords t rows =
      (rows.filter (fun r => succOf t (rowKey r))).map (applyRow t) ++
        (rows.filter (fun r => !succOf t (rowKey r))).map (applyRow t) := by
    rw [finalRecords, hclean, hsecond]
  have hkeysapp : ∀ (a b : List Record),
      successRecKeys (a ++ b) = successRecKeys a ∪ successRecKeys b := by
    intro a b
    rw [successRecKeys, successRecKeys, successRecKeys, List.filter_append,
      List.map_append, List.toFinset_append]
  have hkeys1 : successRecKeys
      ((rows.filter (fun r => succOf t (rowKey r))).map (applyRow t)) =
      ((rows.filter (fun r => succOf t (rowKey r))).map rowKey).toFinset := by
    rw [successRecKeys_map_applyRow t _ hwfS, List.filter_filter]
    congr 2
    apply List.filter_congr
    intro r _
    simp
  have hkeys2 : successRecKeys
      ((rows.filter (fun r => !succOf t (rowKey r))).map (applyRow t)) = ∅ := by
    rw [successRecKeys_map_applyRow t _ hwfF, List.filter_filter]
    have hnil : rows.filter (fun a => succOf t (rowKey a) && !succOf t (rowKey a)) = [] := by
      apply List.filter_eq_nil_iff.mpr
      intro r _
      simp
    rw [hnil]
    rfl
  refine ⟨?_, ?_, ?_⟩
  · rw [hfinal, hkeysapp, hkeys1, hkeys2,
      successRecKeys_map_applyRow t rows hwf, Finset.union_empty]
  · rw [resumeSet_eq t rows hwf, hsecond]
    ext x
    simp only [Finset.mem_union, List.mem_toFinset, List.mem_map, List.mem_filter]
    constructor
    · rintro (⟨r, ⟨hr, _⟩, hk⟩ | ⟨r, ⟨hr, _⟩, hk⟩) <;> exact ⟨r, hr, hk⟩
    · rintro ⟨r, hr, hk⟩
      by_cases hs : succOf t (rowKey r) = true
      · exact Or.inl ⟨r, ⟨hr, hs⟩, hk⟩
      · exact Or.inr ⟨r, ⟨hr, by simpa using hs⟩, hk⟩
  · intro hnd
    rw [hfinal, List.map_append,
      map_extract_applyRow t _ hwfS, map_extract_applyRow t _ hwfF]
    have hnd1 : ((rows.filter (fun r => succOf t (rowKey r))).map rowKey).Nodup :=
      hnd.sublist ((List.filter_sublist rows).map rowKey)
    have hnd2 : ((rows.filter (fun r => !succOf t (rowKey r))).map rowKey).Nodup :=
      hnd.sublist ((List.filter_sublist rows).map rowKey)
    refine hnd1.append hnd2 ?_
    intro x hx1 hx2
    obtain ⟨r1, hr1, hk1⟩ := List.mem_map.mp hx1
    obtain ⟨r2, hr2, hk2⟩ := List.mem_map.mp hx2
    have hs1 := (List.mem_filter.mp hr1).2
    have hs2 := (List.mem_filter.mp hr2).2
    rw [hk1] at hs1
    rw [hk2] at hs2
    simp only [Bool.not_eq_true'] at hs2
    rw [hs1] at hs2
    exact Bool.noConfusion hs2

/-- The input rows of the C5 witness. -/
def wRows : List Record :=
  [[("URL", PyVal.vStr "http://a")], [("URL", PyVal.vStr "http://b")]]

/-- The deterministic transform of the C5 witness: `"http://a"` resolves,
everything else fails. -/
def wT : String → String × String := fun u =>
  if u = "http://a" then ("http://cdn/a", "") else ("", "fail")

/-- Witness for C5 on `wRows` and `wT`. -/
theorem resume_second_run_idempotent_witness :
    (∀ row ∈ wRows, WFRow row) ∧
    (successRecKeys (finalRecords wT wRows) =
        successRecKeys (wRows.map (applyRow wT)) ∧
      resumeSet wT wRows ∪ ((secondRows wT wRows).map rowKey).toFinset =
        (wRows.map rowKey).toFinset ∧
      ((wRows.map rowKey).Nodup →
        ((finalRecords wT wRows).map
          (fun r => extract_url_from_record r "URL")).Nodup)) := by
  have hwf : ∀ row ∈ wRows, WFRow row := by
    intro row hmem
    rw [wRows, List.mem_cons, List.mem_cons] at hmem
    rcases hmem with h | h | h
    · subst h
      exact ⟨⟨"http://a", rfl, by decide, by decide⟩, rfl, rfl⟩
    · subst h
      exact ⟨⟨"http://b", rfl, by decide, by decide⟩, rfl, rfl⟩
    · simp at h
  exact ⟨hwf, resume_second_run_idempotent wT wRows hwf⟩

/-! ## Interrupt handling in `resolve_kuaishou_cdn.py`

`_handle_sigint` (lines 30-34) sets the module-level flag and installs
`SIG_IGN`, so a second interrupt during shutdown is ignored.  `process_batch`
(lines 208-271), once the flag is observed, stops consuming completions,
fills every still-`None` slot of the `results` array with a record carrying
the reserved error string `"interrupted"`, and returns the non-`None` items;
`main`'s batch loop (lines 333-353, 363-381) writes the returned batch and
returns exit status 130 — batches after the interrupted one are never
started. -/

/-- State of the interrupt machinery: the `_INTERRUPTED` flag and whether the
`SIGINT` disposition is `SIG_IGN`. -/
structure SigState where
  interrupted : Bool
  ignoring : Bool
deriving Repr, DecidableEq

/-- Delivery of one `SIGINT`: ignored under `SIG_IGN`, otherwise
`_handle_sigint` sets the flag and installs `SIG_IGN`. -/
def deliverSigint (st : SigState) : SigState :=
  if st.ignoring then st else ⟨true, true⟩

/-- Outcome of one pooled `process_one` future in `process_batch`:
`future.result()` (a settled record) or an exception carrying a message. -/
inductive BatchOutcome where
  | ok (rec : ResolveRec)
  | raises (msg : String)
deriving Repr, DecidableEq

/-- The settle step of `process_batch` (lines 244-252): `results[idx] =
future.result()`, or on exception the record
`{"url": batch[idx], "cdn_url": "", "error_msg": str(exc)}`. -/
def futureSettle (batch : List String) (t : Nat → BatchOutcome) (i : Nat) : ResolveRec :=
  match t i with
  | BatchOutcome.ok rec => rec
  | BatchOutcome.raises msg => ⟨batch.getD i "", "", msg⟩

/-- Storing the settled results of the processed completions `done` into the
`results` array (initialized to all `None`, line 233). -/
def fillCompleted (res : Nat → ResolveRec) (done : List Nat)
    (init : List (Option ResolveRec)) : List (Option ResolveRec) :=
  done.foldl (fun acc i => acc.set i (some (res i))) init

/-- The `if _INTERRUPTED` marking loop (lines 262-269): replace every `None`
entry at index `i` by `{"url": batch[i], "cdn_url": "", "error_msg":
"interrupted"}`. -/
def markInterrupted (batch : List String) :
    Nat → List (Option ResolveRec) → List (Option ResolveRec)
  | _, [] => []
  | i, none :: rest =>
    some ⟨batch.getD i "", "", "interrupted"⟩ :: markInterrupted batch (i + 1) rest
  | i, some r :: rest => some r :: markInterrupted batch (i + 1) rest

/-- The pooled branch of `process_batch` when the interrupt flag is observed
after the completions `done` (the prefix of `as_completed` consumed before
the `if _INTERRUPTED: break`): fill the processed results, mark the rest
interrupted, return the non-`None` items (line 271). -/
def process_batch_interrupted (batch : List String) (t : Nat → BatchOutcome)
    (done : List Nat) : List ResolveRec :=
  (markInterrupted batch 0
    (fillCompleted (futureSettle batch t) done
      (List.replicate batch.length none))).filterMap id

/-- The pooled branch of `process_batch` on a run where every completion was
consumed and no interrupt arrived: every slot is filled, no marking happens,
the non-`None` items are returned. -/
def process_batch_normal (batch : List String) (t : Nat → BatchOutcome) : List ResolveRec :=
  (fillCompleted (futureSettle batch t) (List.range batch.length)
    (List.replicate batch.length none)).filterMap id

/-- The batch loop of `main` with an interrupt during batch `j` (after the
completions `doneJ` of that batch): earlier batches are processed and written
normally, the interrupted batch is written with its markings, and the loop
returns exit status 130 without starting later batches. -/
def runBatchesInterrupted (t : Nat → Nat → BatchOutcome) :
    List (List String) → Nat → List Nat → Nat × List ResolveRec
  | [], _, _ => (0, [])
  | b :: _, 0, doneJ => (130, process_batch_interrupted b (t 0) doneJ)
  | b :: rest, j + 1, doneJ =>
    let out := process_batch_normal b (t 0)
    let tail := runBatchesInterrupted (fun k => t (k + 1)) rest j doneJ
    (tail.1, out ++ tail.2)

theorem fillCompleted_getElem (res : Nat → ResolveRec) :
    ∀ (done : List Nat) (init : List (Option ResolveRec)) (i : Nat),
      (∀ j ∈ done, j < init.length) →
      (fillCompleted res done init)[i]? =
        if i ∈ done then some (some (res i)) else init[i]? := by
  intro done
  induction done with
  | nil =>
    intro init i _
    simp [fillCompleted]
  | cons d ds ih =>
    intro init i hlt
    show (fillCompleted res ds (init.set d (some (res d))))[i]? = _
    rw [ih (init.set d (some (res d))) i
      (fun j hj => by rw [List.length_set]; exact hlt j (List.mem_cons_of_mem _ hj))]
    by_cases hds : i ∈ ds
    · rw [if_pos hds, if_pos (List.mem_cons_of_mem _ hds)]
    · rw [if_neg hds]
      by_cases hid : i = d
      · subst hid
        rw [if_pos (List.mem_cons_self _ _)]
        rw [List.getElem?_set_self' ]
        rw [List.getElem?_eq_getElem (hlt i (List.mem_cons_self _ _))]
        simp
      · rw [if_neg (by
          intro hmem
          rcases List.mem_cons.mp hmem with h | h
          · exact hid h
          · exact hds h)]
        rw [List.getElem?_set_ne (by omega)]

theorem markInterrupted_getElem (batch : List String) :
    ∀ (l : List (Option ResolveRec)) (i0 i : Nat),
      (markInterrupted batch i0 l)[i]? =
        l[i]?.map (fun o =>
          match o with
          | none => some ⟨batch.getD (i0 + i) "", "", "interrupted"⟩
          | some r => some r) := by
  intro l
  induction l with
  | nil => intro i0 i; simp [markInterrupted]
  | cons hd rest ih =>
    intro i0 i
    cases hd with
    | none =>
      cases i with
      | zero => simp [markInterrupted]
      | succ m =>
        have hstep : markInterrupted batch i0 (none :: rest) =
            some ⟨batch.getD i0 "", "", "interrupted"⟩ ::
              markInterrupted batch (i0 + 1) rest := rfl
        rw [hstep, List.getElem?_cons_succ, List.getElem?_cons_succ, ih (i0 + 1) m]
        have hoff : i0 + 1 + m = i0 + (m + 1) := by omega
        rw [hoff]
    | some r =>
      cases i with
      | zero => simp [markInterrupted]
      | succ m =>
        have hstep : markInterrupted batch i0 (some r :: rest) =
            some r :: markInterrupted batch (i0 + 1) rest := rfl
        rw [hstep, List.getElem?_cons_succ, List.getElem?_cons_succ, ih (i0 + 1) m]
        have hoff : i0 + 1 + m = i0 + (m + 1) := by omega
        rw [hoff]

theorem filterMap_some_eq_map {α β : Type} (g : α → β) (l : List α) :
    l.filterMap (fun a => some (g a)) = l.map g := by
  induction l with
  | nil => rfl
  | cons a rest ih => simp [List.filterMap_cons, ih]

theorem process_batch_interrupted_eq (batch : List String) (t : Nat → BatchOutcome)
    (done : List Nat) (hd : ∀ j ∈ done, j < batch.length) :
    process_batch_interrupted batch t done =
      (List.range batch.length).map (fun i =>
        if i ∈ done then futureSettle batch t i
        else ⟨batch.getD i "", "", "interrupted"⟩) := by
  rw [process_batch_interrupted]
  have hmark : markInterrupted batch 0
      (fillCompleted (futureSettle batch t) done
        (List.replicate batch.length none)) =
      (List.range batch.length).map (fun i =>
        some (if i ∈ done then futureSettle batch t i
          else ⟨batch.getD i "", "", "interrupted"⟩)) := by
    apply List.ext_getElem?
    intro i
    rw [markInterrupted_getElem batch _ 0 i,
      fillCompleted_getElem (futureSettle batch t) done _ i
        (by simpa using hd)]
    by_cases hi : i < batch.length
    · by_cases hdone : i ∈ done
      · simp [hdone, hi, List.getElem?_range]
      · simp [hdone, hi, List.getElem?_range, List.getElem?_replicate]
    · have h1 : (List.replicate batch.length (none : Option ResolveRec))[i]? = none := by
        rw [List.getElem?_eq_none]
        simpa using Nat.le_of_not_lt hi
      have h3 : (List.range batch.length)[i]? = none := by
        rw [List.getElem?_eq_none]
        simpa using Nat.le_of_not_lt hi
      have hdone : i ∉ done := fun hmem => hi (hd i hmem)
      simp [hdone, h1, h3]
  rw [hmark, List.filterMap_map]
  exact filterMap_some_eq_map _ _

theorem runBatchesInterrupted_code (t : Nat → Nat → BatchOutcome) :
    ∀ (batches : List (List String)) (j : Nat) (doneJ : List Nat),
      j < batches.length → (runBatchesInterrupted t batches j doneJ).1 = 130 := by
  intro batches
  induction batches generalizing t with
  | nil => intro j doneJ hj; simp at hj
  | cons b rest ih =>
    intro j doneJ hj
    cases j with
    | zero => rfl
    | succ m =>
      show (runBatchesInterrupted (fun k => t (k + 1)) rest m doneJ).1 = 130
      exact ih (fun k => t (k + 1)) m doneJ (by simpa using Nat.lt_of_succ_lt_succ hj)

/-- The transform used in the C3 counterexample (its value is irrelevant; no
completion is processed before the interrupt). -/
def dummyT : Nat → Nat → BatchOutcome := fun _ _ => BatchOutcome.ok ⟨"", "", ""⟩

/-- C3 counterexample: with inputs `["a","b"]` and `["c"]` chunked into two
batches and an interrupt during batch 0 (no completion processed), the run
exits with 130 and writes the two records of batch 0 marked `"interrupted"` —
but the record for input `"c"`, which also never completed, appears zero
times in the output, not exactly once: batches after the interrupted one are
never started, so not every uncompleted record is marked and written. -/
theorem interrupted_later_batch_absent :
    runBatchesInterrupted dummyT [["a", "b"], ["c"]] 0 [] =
      (130, [⟨"a", "", "interrupted"⟩, ⟨"b", "", "interrupted"⟩]) ∧
    (runBatchesInterrupted dummyT [["a", "b"], ["c"]] 0 []).2.countP
      (fun r => r.url == "c") = 0 := by
  refine ⟨by decide, by decide⟩

/-- C3 amended: upon an interrupt observed in the current batch, the
processor stops consuming completions, marks every record *of that batch*
that never completed with the reserved error string `"interrupted"` — each
input of the batch is present exactly once in the returned list, completed
ones with their settled results, in input order — `main` writes that batch
and exits with status 130 without starting later batches (whose records are
absent from the output), and a second interrupt during shutdown is ignored
(`SIG_IGN` is installed by the first delivery). -/
theorem interrupt_marks_current_batch (batch : List String) (t : Nat → BatchOutcome)
    (done : List Nat) (hd : ∀ j ∈ done, j < batch.length)
    (tb : Nat → Nat → BatchOutcome) (batches : List (List String)) (j : Nat)
    (doneJ : List Nat) (hj : j < batches.length) (s : SigState) :
    (process_batch_interrupted batch t done).length = batch.length ∧
    (∀ i, i < batch.length →
      (process_batch_interrupted batch t done)[i]? =
        some (if i ∈ done then futureSettle batch t i
          else ⟨batch.getD i "", "", "interrupted"⟩)) ∧
    (runBatchesInterrupted tb batches j doneJ).1 = 130 ∧
    deliverSigint (deliverSigint s) = deliverSigint s := by
  have heq := process_batch_interrupted_eq batch t done hd
  refine ⟨?_, ?_, runBatchesInterrupted_code tb batches j doneJ hj, ?_⟩
  · rw [heq]; simp
  · intro i hi
    rw [heq]
    simp [List.getElem?_map, List.getElem?_range, hi]
  · by_cases hig : s.ignoring <;> simp [deliverSigint, hig]

/-- Witness for C3 amended: batch `["a","b","c"]` with completion 1 processed
before the interrupt, a second run of one batch interrupted at its start, and
a fresh signal state. -/
theorem interrupt_marks_current_batch_witness :
    (∀ j ∈ [1], j < (["a", "b", "c"] : List String).length) ∧
    (0 < ([["x"]] : List (List String)).length) ∧
    ((process_batch_interrupted ["a", "b", "c"] (fun _ =>
        BatchOutcome.ok ⟨"u", "c", ""⟩) [1]).length = 3 ∧
    (∀ i, i < (["a", "b", "c"] : List String).length →
      (process_batch_interrupted ["a", "b", "c"] (fun _ =>
          BatchOutcome.ok ⟨"u", "c", ""⟩) [1])[i]? =
        some (if i ∈ [1] then futureSettle ["a", "b", "c"] (fun _ =>
            BatchOutcome.ok ⟨"u", "c", ""⟩) i
          else ⟨(["a", "b", "c"] : List String).getD i "", "", "interrupted"⟩)) ∧
    (runBatchesInterrupted (fun _ _ => BatchOutcome.ok ⟨"", "", ""⟩) [["x"]] 0 []).1 = 130 ∧
    deliverSigint (deliverSigint ⟨false, false⟩) = deliverSigint ⟨false, false⟩) :=
  ⟨by decide, by decide,
    interrupt_marks_current_batch ["a", "b", "c"]
      (fun _ => BatchOutcome.ok ⟨"u", "c", ""⟩) [1] (by decide)
      (fun _ _ => BatchOutcome.ok ⟨"", "", ""⟩) [["x"]] 0 [] (by decide)
      ⟨false, false⟩⟩

/-- The file and prior contents used in the C7 witness. -/
def atomFile : List JsonLine :=
  [JsonLine.obj [("URL", PyVal.vStr "http://a"), ("CDNURL", PyVal.vStr "http://cdn/a")],
   JsonLine.badJson]

/-- Witness for C7: the one-operation prefix of the rewrite trace of
`atomFile` (a crash after the first temp write) leaves the original contents
in place. -/
theorem clean_rewrite_atomic_witness :
    ([FsOp.writeTmp [("URL", PyVal.vStr "http://a"), ("CDNURL", PyVal.vStr "http://cdn/a")]]
      <+: cleanOps "CDNURL" (some "error_msg") atomFile) ∧
    (((applyOps ⟨[], [[("URL", PyVal.vStr "old")]]⟩
        [FsOp.writeTmp [("URL", PyVal.vStr "http://a"), ("CDNURL", PyVal.vStr "http://cdn/a")]]).out =
        [[("URL", PyVal.vStr "old")]] ∨
      (applyOps ⟨[], [[("URL", PyVal.vStr "old")]]⟩
        [FsOp.writeTmp [("URL", PyVal.vStr "http://a"), ("CDNURL", PyVal.vStr "http://cdn/a")]]).out =
        atomFile.filterMap (keptRecord "CDNURL" (some "error_msg"))) ∧
    (applyOps ⟨[], [[("URL", PyVal.vStr "old")]]⟩
        (cleanOps "CDNURL" (some "error_msg") atomFile)).out =
      atomFile.filterMap (keptRecord "CDNURL" (some "error_msg"))) :=
  ⟨by decide,
    clean_rewrite_atomic "CDNURL" (some "error_msg") atomFile
      [[("URL", PyVal.vStr "old")]]
      [FsOp.writeTmp [("URL", PyVal.vStr "http://a"), ("CDNURL", PyVal.vStr "http://cdn/a")]]
      (by decide)⟩

end KwaiBatch
